import Mathlib

/-!
Shallow embedding of the GTDynamics constraint-assembly core
(src/dynamics/DynamicsGraph.cpp, src/cpp/UniversalRobot.h) together with
theorems about the assembled constraint sets.

Doubles are modelled as exact rationals (`ℚ`); gtsam collaborator types
(`NonlinearFactorGraph`, `Values`) are modelled as lists of factors and
association lists of key/value pairs; C++ exceptions are modelled with
`Except`.  Noise models (`opt_.p_cost_model` etc.) carry no information
relevant to the properties below (constraint counts, keys, residual zero
sets for `Constrained::All` models) and are omitted from the factor data.
-/

namespace GTD

/-- A 3-vector of rationals (models `gtsam::Vector3`). -/
structure Vec3 where
  x : ℚ
  y : ℚ
  z : ℚ
deriving DecidableEq, Repr

/-- A 6-vector of rationals (models `gtsam::Vector6`). -/
structure Vec6 where
  c1 : ℚ
  c2 : ℚ
  c3 : ℚ
  c4 : ℚ
  c5 : ℚ
  c6 : ℚ
deriving DecidableEq, Repr

/-- The zero 6-vector (`gtsam::Vector6::Zero()`). -/
def Vec6.zero : Vec6 := ⟨0, 0, 0, 0, 0, 0⟩

/-- A 3x3 matrix as three rows (models inertia matrices). -/
structure Mat3 where
  r1 : Vec3
  r2 : Vec3
  r3 : Vec3
deriving DecidableEq, Repr

/-- A rigid transform, rotation rows plus translation (models `gtsam::Pose3`).
Only stored and compared by the properties below, never composed. -/
structure Pose3 where
  rot1 : Vec3
  rot2 : Vec3
  rot3 : Vec3
  trans : Vec3
deriving DecidableEq, Repr

/-- The identity pose. -/
def Pose3.identity : Pose3 :=
  ⟨⟨1, 0, 0⟩, ⟨0, 1, 0⟩, ⟨0, 0, 1⟩, ⟨0, 0, 0⟩⟩

/-- Modelled from the spec: the Variable-Key scheme (`PoseKey`, `TwistKey`,
..., `PhaseKey` of DynamicsGraph.h, which is not among the analyzed
sources; only its uses in DynamicsGraph.cpp are).  Spec §4.4 requires a
deterministic encoding of (semantic role, entity ids, time index) into
identifiers that is collision-free by construction; an inductive type of
tagged tuples realizes exactly that contract. -/
inductive DynKey where
  | pose (i t : ℕ)
  | twist (i t : ℕ)
  | twistAccel (i t : ℕ)
  | wrench (i j t : ℕ)
  | torque (j t : ℕ)
  | angle (j t : ℕ)
  | vel (j t : ℕ)
  | accel (j t : ℕ)
  | phase (k : ℕ)
deriving DecidableEq, Repr

/-- Key of link `i`'s pose variable at time `t`. -/
def PoseKey (i t : ℕ) : DynKey := DynKey.pose i t

/-- Key of link `i`'s twist variable at time `t`. -/
def TwistKey (i t : ℕ) : DynKey := DynKey.twist i t

/-- Key of link `i`'s twist-acceleration variable at time `t`. -/
def TwistAccelKey (i t : ℕ) : DynKey := DynKey.twistAccel i t

/-- Key of the wrench applied to link `i` by joint `j` at time `t`. -/
def WrenchKey (i j t : ℕ) : DynKey := DynKey.wrench i j t

/-- Key of joint `j`'s torque variable at time `t`. -/
def TorqueKey (j t : ℕ) : DynKey := DynKey.torque j t

/-- Key of joint `j`'s angle variable at time `t`. -/
def JointAngleKey (j t : ℕ) : DynKey := DynKey.angle j t

/-- Key of joint `j`'s velocity variable at time `t`. -/
def JointVelKey (j t : ℕ) : DynKey := DynKey.vel j t

/-- Key of joint `j`'s acceleration variable at time `t`. -/
def JointAccelKey (j t : ℕ) : DynKey := DynKey.accel j t

/-- Key of the duration variable of phase `k`. -/
def PhaseKey (k : ℕ) : DynKey := DynKey.phase k

/-- A link (`RobotLink`): id, name, fixed flag, the pinned pose used by the
fixed-link priors (`getFixedPose`), the rest world pose of the
center-of-mass frame (`Twcom`), the inertia matrix, and the ids of the
incident joints (`getJoints`). -/
structure Link where
  id : ℕ
  name : String
  isFixed : Bool
  fixedPose : Pose3
  Twcom : Pose3
  inertia : Mat3
  joints : List ℕ
deriving DecidableEq, Repr

/-- A joint (`RobotJoint`): id, name, parent/child link ids and names, the
rest relative transform `transformTo(childLink)` and the screw axis
`screwAxis(childLink)` expressed in the child's frame. -/
structure Joint where
  id : ℕ
  name : String
  parentId : ℕ
  childId : ℕ
  parentName : String
  childName : String
  transformToChild : Pose3
  screwAxisChild : Vec6
deriving DecidableEq, Repr

/-- A robot (`UniversalRobot`): its links and joints. -/
structure Robot where
  links : List Link
  joints : List Joint
deriving DecidableEq, Repr

/-- The empty robot, used as the out-of-range default for list indexing. -/
def Robot.empty : Robot := ⟨[], []⟩

/-- Models `UniversalRobot::numJoints` ("Return number of joints."). -/
def Robot.numJoints (r : Robot) : ℕ := r.joints.length

/-- Well-formedness from spec §3: link ids unique, joint ids unique, and
each joint's two endpoints are different links. -/
def Robot.wf (r : Robot) : Prop :=
  (r.links.map Link.id).Nodup ∧ (r.joints.map Joint.id).Nodup ∧
    ∀ j ∈ r.joints, j.parentId ≠ j.childId

instance (r : Robot) : Decidable r.wf := by
  unfold Robot.wf; infer_instance

/-- A scalar expression over dynamics variables, the fragment of
`gtsam::Expression<double>` built by the collocation factor builders:
variables, sums, differences, scalar multiples and products of two
variables (`multDouble`). -/
inductive DExpr where
  | var (k : DynKey)
  | add (a b : DExpr)
  | sub (a b : DExpr)
  | smul (c : ℚ) (e : DExpr)
  | mul (a b : DExpr)
deriving DecidableEq, Repr

/-- Evaluate an expression at a variable assignment. -/
def evalD (asg : DynKey → ℚ) : DExpr → ℚ
  | .var k => asg k
  | .add a b => evalD asg a + evalD asg b
  | .sub a b => evalD asg a - evalD asg b
  | .smul c e => c * evalD asg e
  | .mul a b => evalD asg a * evalD asg b

/-- Whether the expression refers to the key `k`. -/
def mentionsKey (k : DynKey) : DExpr → Bool
  | .var k' => k' == k
  | .add a b => mentionsKey k a || mentionsKey k b
  | .sub a b => mentionsKey k a || mentionsKey k b
  | .smul _ e => mentionsKey k e
  | .mul a b => mentionsKey k a || mentionsKey k b

/-- Residual of an expression factor with a measured value
(`addExpressionFactor(e, z, Constrained::All(1))` is satisfied exactly
when this is zero). -/
def exprResidual (asg : DynKey → ℚ) (e : DExpr) (measured : ℚ) : ℚ :=
  evalD asg e - measured

/-- The fatal builder errors of DynamicsGraph.cpp: the
`"Wrench factor not defined"` throw for link degree ≥ 5
(spec name `UnsupportedLinkDegree`) and the
`"runge-kutta and hermite-simpson not implemented yet"` throw
(spec name `UnsupportedCollocation`). -/
inductive DynError where
  | unsupportedLinkDegree
  | unsupportedCollocation
deriving DecidableEq, Repr

/-- A constraint/factor of the assembled nonlinear factor graph.  Each
constructor records the factor's variable keys and measured data in the
argument order of the corresponding C++ factor. -/
inductive Factor where
  | priorPose (k : DynKey) (p : Pose3)
  | priorVec6 (k : DynKey) (v : Vec6)
  | priorDouble (k : DynKey) (x : ℚ)
  | poseFactor (kp1 kp2 kq : DynKey) (rest : Pose3) (axis : Vec6)
  | twistFactor (kt1 kt2 kq kv : DynKey) (rest : Pose3) (axis : Vec6)
  | twistAccelFactor (kt2 ka1 ka2 kq kv ka : DynKey) (rest : Pose3) (axis : Vec6)
  | wrenchFactor (ktwist kaccel : DynKey) (wrenchKeys : List DynKey)
      (kpose : DynKey) (inertia : Mat3) (gravity : Option Vec3)
  | wrenchEquivFactor (kw1 kw2 kq : DynKey) (rest : Pose3) (axis : Vec6)
  | torqueFactor (kw ktau : DynKey) (axis : Vec6)
  | wrenchPlanarFactor (kw : DynKey) (axis : Vec3)
  | exprFactor (e : DExpr) (measured : ℚ)
deriving DecidableEq, Repr

/-- Models `DynamicsGraphBuilder::qFactors`: a constrained pose prior per fixed
link, then a `PoseFactor` per joint. -/
def qFactors (robot : Robot) (t : ℕ) : List Factor :=
  robot.links.filterMap (fun link =>
    if link.isFixed then
      some (Factor.priorPose (PoseKey link.id t) link.fixedPose)
    else none)
  ++ robot.joints.map (fun joint =>
    Factor.poseFactor (PoseKey joint.parentId t) (PoseKey joint.childId t)
      (JointAngleKey joint.id t) joint.transformToChild joint.screwAxisChild)

/-- Models `DynamicsGraphBuilder::vFactors`: a constrained zero-twist prior per
fixed link, then a `TwistFactor` per joint. -/
def vFactors (robot : Robot) (t : ℕ) : List Factor :=
  robot.links.filterMap (fun link =>
    if link.isFixed then
      some (Factor.priorVec6 (TwistKey link.id t) Vec6.zero)
    else none)
  ++ robot.joints.map (fun joint =>
    Factor.twistFactor (TwistKey joint.parentId t) (TwistKey joint.childId t)
      (JointAngleKey joint.id t) (JointVelKey joint.id t)
      joint.transformToChild joint.screwAxisChild)

/-- Models `DynamicsGraphBuilder::aFactors`: a constrained zero-acceleration prior
per fixed link, then a `TwistAccelFactor` per joint. -/
def aFactors (robot : Robot) (t : ℕ) : List Factor :=
  robot.links.filterMap (fun link =>
    if link.isFixed then
      some (Factor.priorVec6 (TwistAccelKey link.id t) Vec6.zero)
    else none)
  ++ robot.joints.map (fun joint =>
    Factor.twistAccelFactor (TwistKey joint.childId t)
      (TwistAccelKey joint.parentId t) (TwistAccelKey joint.childId t)
      (JointAngleKey joint.id t) (JointVelKey joint.id t)
      (JointAccelKey joint.id t) joint.transformToChild joint.screwAxisChild)

/-- The wrench-balance factor emitted for one link in
`DynamicsGraphBuilder::dynamicsFactors`: nothing for a fixed link,
`WrenchFactor0` .. `WrenchFactor4` according to the number of connected
joints, and the `"Wrench factor not defined"` throw for degree ≥ 5. -/
def linkWrenchFactors (gravity : Option Vec3) (t : ℕ) (link : Link) :
    Except DynError (List Factor) :=
  if link.isFixed then .ok []
  else
    match link.joints with
    | [] => .ok [Factor.wrenchFactor (TwistKey link.id t)
        (TwistAccelKey link.id t) [] (PoseKey link.id t) link.inertia gravity]
    | [j0] => .ok [Factor.wrenchFactor (TwistKey link.id t)
        (TwistAccelKey link.id t) [WrenchKey link.id j0 t]
        (PoseKey link.id t) link.inertia gravity]
    | [j0, j1] => .ok [Factor.wrenchFactor (TwistKey link.id t)
        (TwistAccelKey link.id t) [WrenchKey link.id j0 t, WrenchKey link.id j1 t]
        (PoseKey link.id t) link.inertia gravity]
    | [j0, j1, j2] => .ok [Factor.wrenchFactor (TwistKey link.id t)
        (TwistAccelKey link.id t)
        [WrenchKey link.id j0 t, WrenchKey link.id j1 t, WrenchKey link.id j2 t]
        (PoseKey link.id t) link.inertia gravity]
    | [j0, j1, j2, j3] => .ok [Factor.wrenchFactor (TwistKey link.id t)
        (TwistAccelKey link.id t)
        [WrenchKey link.id j0 t, WrenchKey link.id j1 t, WrenchKey link.id j2 t,
         WrenchKey link.id j3 t]
        (PoseKey link.id t) link.inertia gravity]
    | _ => .error .unsupportedLinkDegree

/-- The link loop of `dynamicsFactors`, accumulating the wrench-balance
factors in link order. -/
def linksWrench (gravity : Option Vec3) (t : ℕ) :
    List Link → Except DynError (List Factor)
  | [] => .ok []
  | link :: rest => do
      let f ← linkWrenchFactors gravity t link
      let fs ← linksWrench gravity t rest
      .ok (f ++ fs)

/-- The joint loop body of `dynamicsFactors`: a `WrenchEquivalenceFactor`
and a `TorqueFactor` per joint, plus a `WrenchPlanarFactor` when a planar
axis is supplied. -/
def jointDynFactors (planarAxis : Option Vec3) (t : ℕ) (joint : Joint) :
    List Factor :=
  [Factor.wrenchEquivFactor (WrenchKey joint.parentId joint.id t)
      (WrenchKey joint.childId joint.id t) (JointAngleKey joint.id t)
      joint.transformToChild joint.screwAxisChild,
   Factor.torqueFactor (WrenchKey joint.childId joint.id t)
      (TorqueKey joint.id t) joint.screwAxisChild]
  ++ (match planarAxis with
      | some axis => [Factor.wrenchPlanarFactor
          (WrenchKey joint.childId joint.id t) axis]
      | none => [])

/-- Models `DynamicsGraphBuilder::dynamicsFactors`: wrench-balance factors for all
links, then wrench-equivalence/torque(/planar) factors for all joints. -/
def dynamicsFactors (robot : Robot) (t : ℕ) (gravity : Option Vec3)
    (planarAxis : Option Vec3) : Except DynError (List Factor) := do
  let wfs ← linksWrench gravity t robot.links
  .ok (wfs ++ robot.joints.flatMap (jointDynFactors planarAxis t))

/-- Models `DynamicsGraphBuilder::dynamicsFactorGraph`: the union (concatenation)
of `qFactors`, `vFactors`, `aFactors` and `dynamicsFactors`.  The
`contacts` argument is accepted and ignored, as in the source. -/
def dynamicsFactorGraph (robot : Robot) (t : ℕ) (gravity : Option Vec3)
    (planarAxis : Option Vec3) (_contacts : Option (List ℕ)) :
    Except DynError (List Factor) := do
  let dfs ← dynamicsFactors robot t gravity planarAxis
  .ok (qFactors robot t ++ vFactors robot t ++ aFactors robot t ++ dfs)

/-- The collocation schemes of `DynamicsGraphBuilder::CollocationScheme`. -/
inductive CollocationScheme where
  | Euler
  | RungeKutta
  | Trapezoidal
  | HermiteSimpson
deriving DecidableEq, Repr

/-- The Euler angle expression `q0_expr + dt * v0_expr - q1_expr`. -/
def eulerQExpr (j t : ℕ) (dt : ℚ) : DExpr :=
  .sub (.add (.var (JointAngleKey j t)) (.smul dt (.var (JointVelKey j t))))
    (.var (JointAngleKey j (t + 1)))

/-- The Euler velocity expression `v0_expr + dt * a0_expr - v1_expr`. -/
def eulerVExpr (j t : ℕ) (dt : ℚ) : DExpr :=
  .sub (.add (.var (JointVelKey j t)) (.smul dt (.var (JointAccelKey j t))))
    (.var (JointVelKey j (t + 1)))

/-- The trapezoidal angle expression
`q0_expr + 0.5 * dt * v0_expr + 0.5 * dt * v1_expr - q1_expr`. -/
def trapQExpr (j t : ℕ) (dt : ℚ) : DExpr :=
  .sub (.add (.add (.var (JointAngleKey j t))
      (.smul (1/2 * dt) (.var (JointVelKey j t))))
      (.smul (1/2 * dt) (.var (JointVelKey j (t + 1)))))
    (.var (JointAngleKey j (t + 1)))

/-- The trapezoidal velocity expression
`v0_expr + 0.5 * dt * a0_expr + 0.5 * dt * a1_expr - v1_expr`. -/
def trapVExpr (j t : ℕ) (dt : ℚ) : DExpr :=
  .sub (.add (.add (.var (JointVelKey j t))
      (.smul (1/2 * dt) (.var (JointAccelKey j t))))
      (.smul (1/2 * dt) (.var (JointAccelKey j (t + 1)))))
    (.var (JointVelKey j (t + 1)))

/-- The switch body of `collocationFactors` for one joint: two expression
factors for Euler or Trapezoidal, the
`"runge-kutta and hermite-simpson not implemented yet"` throw otherwise. -/
def jointCollocation (dt : ℚ) (scheme : CollocationScheme) (t : ℕ)
    (joint : Joint) : Except DynError (List Factor) :=
  match scheme with
  | .Euler => .ok [Factor.exprFactor (eulerQExpr joint.id t dt) 0,
      Factor.exprFactor (eulerVExpr joint.id t dt) 0]
  | .Trapezoidal => .ok [Factor.exprFactor (trapQExpr joint.id t dt) 0,
      Factor.exprFactor (trapVExpr joint.id t dt) 0]
  | _ => .error .unsupportedCollocation

/-- The joint loop of `collocationFactors`. -/
def collocList (dt : ℚ) (scheme : CollocationScheme) (t : ℕ) :
    List Joint → Except DynError (List Factor)
  | [] => .ok []
  | joint :: rest => do
      let fs ← jointCollocation dt scheme t joint
      let more ← collocList dt scheme t rest
      .ok (fs ++ more)

/-- Models `DynamicsGraphBuilder::collocationFactors` (fixed step size `dt`). -/
def collocationFactors (robot : Robot) (t : ℕ) (dt : ℚ)
    (scheme : CollocationScheme) : Except DynError (List Factor) :=
  collocList dt scheme t robot.joints

/-- The multi-phase Euler angle expression `q0_expr + v0dt - q1_expr`,
where `v0dt = multDouble(phase_expr, v0_expr)`. -/
def phaseEulerQExpr (j t ph : ℕ) : DExpr :=
  .sub (.add (.var (JointAngleKey j t))
      (.mul (.var (PhaseKey ph)) (.var (JointVelKey j t))))
    (.var (JointAngleKey j (t + 1)))

/-- The multi-phase Euler velocity expression `v0_expr + a0dt - v1_expr`. -/
def phaseEulerVExpr (j t ph : ℕ) : DExpr :=
  .sub (.add (.var (JointVelKey j t))
      (.mul (.var (PhaseKey ph)) (.var (JointAccelKey j t))))
    (.var (JointVelKey j (t + 1)))

/-- The multi-phase trapezoidal angle expression
`q0_expr + 0.5 * v0dt + 0.5 * v1dt - q1_expr`. -/
def phaseTrapQExpr (j t ph : ℕ) : DExpr :=
  .sub (.add (.add (.var (JointAngleKey j t))
      (.smul (1/2) (.mul (.var (PhaseKey ph)) (.var (JointVelKey j t)))))
      (.smul (1/2) (.mul (.var (PhaseKey ph)) (.var (JointVelKey j (t + 1))))))
    (.var (JointAngleKey j (t + 1)))

/-- The multi-phase trapezoidal velocity expression
`v0_expr + 0.5 * a0dt + 0.5 * a1dt - v1_expr`. -/
def phaseTrapVExpr (j t ph : ℕ) : DExpr :=
  .sub (.add (.add (.var (JointVelKey j t))
      (.smul (1/2) (.mul (.var (PhaseKey ph)) (.var (JointAccelKey j t)))))
      (.smul (1/2) (.mul (.var (PhaseKey ph)) (.var (JointAccelKey j (t + 1))))))
    (.var (JointVelKey j (t + 1)))

/-- The loop body of `multiPhaseCollocationFactors` for one joint. -/
def jointPhaseCollocation (scheme : CollocationScheme) (t ph : ℕ)
    (joint : Joint) : Except DynError (List Factor) :=
  match scheme with
  | .Euler => .ok [Factor.exprFactor (phaseEulerQExpr joint.id t ph) 0,
      Factor.exprFactor (phaseEulerVExpr joint.id t ph) 0]
  | .Trapezoidal => .ok [Factor.exprFactor (phaseTrapQExpr joint.id t ph) 0,
      Factor.exprFactor (phaseTrapVExpr joint.id t ph) 0]
  | _ => .error .unsupportedCollocation

/-- The joint loop of `multiPhaseCollocationFactors`. -/
def phaseCollocList (scheme : CollocationScheme) (t ph : ℕ) :
    List Joint → Except DynError (List Factor)
  | [] => .ok []
  | joint :: rest => do
      let fs ← jointPhaseCollocation scheme t ph joint
      let more ← phaseCollocList scheme t ph rest
      .ok (fs ++ more)

/-- Models `DynamicsGraphBuilder::multiPhaseCollocationFactors`: collocation
between instants `t` and `t+1` with the duration variable `PhaseKey ph`
as step size. -/
def multiPhaseCollocationFactors (robot : Robot) (t ph : ℕ)
    (scheme : CollocationScheme) : Except DynError (List Factor) :=
  phaseCollocList scheme t ph robot.joints

/-- The loop of `DynamicsGraphBuilder::trajectoryFG`: `cnt` iterations
starting at instant `t`, each adding the per-instant graph and, while
`t < numSteps`, the collocation constraints to the next instant. -/
def trajSteps (robot : Robot) (numSteps : ℕ) (dt : ℚ)
    (scheme : CollocationScheme) (gravity planarAxis : Option Vec3) :
    ℕ → ℕ → Except DynError (List Factor)
  | _, 0 => .ok []
  | t, cnt + 1 => do
      let d ← dynamicsFactorGraph robot t gravity planarAxis none
      let c ← if t < numSteps then collocationFactors robot t dt scheme
              else .ok []
      let rest ← trajSteps robot numSteps dt scheme gravity planarAxis (t + 1) cnt
      .ok (d ++ c ++ rest)

/-- Models `DynamicsGraphBuilder::trajectoryFG`. -/
def trajectoryFG (robot : Robot) (numSteps : ℕ) (dt : ℚ)
    (scheme : CollocationScheme) (gravity planarAxis : Option Vec3) :
    Except DynError (List Factor) :=
  trajSteps robot numSteps dt scheme gravity planarAxis 0 (numSteps + 1)

/-- Builds `cnt` consecutive per-instant graphs starting at instant `start`
(the in-phase loop of `multiPhaseTrajectoryFG`). -/
def instantsFrom (gravity planarAxis : Option Vec3) (robot : Robot) :
    ℕ → ℕ → Except DynError (List Factor)
  | _, 0 => .ok []
  | start, cnt + 1 => do
      let d ← dynamicsFactorGraph robot start gravity planarAxis none
      let rest ← instantsFrom gravity planarAxis robot (start + 1) cnt
      .ok (d ++ rest)

/-- The phase loop of `multiPhaseTrajectoryFG`: for each phase, the
`steps - 1` in-phase instants, then either one more instant (final phase)
or the externally supplied transition graph; `t` is threaded exactly as
the `++t`s of the source do (a phase with `n` steps advances it by
`(n - 1) + 1`). -/
def phasesDyn (gravity planarAxis : Option Vec3) :
    ℕ → List (Robot × ℕ) → List (List Factor) → Except DynError (List Factor)
  | _, [], _ => .ok []
  | t, (robot, n) :: rest, tgs => do
      let interior ← instantsFrom gravity planarAxis robot (t + 1) (n - 1)
      match rest with
      | [] => do
          let dLast ← dynamicsFactorGraph robot (t + (n - 1) + 1) gravity
            planarAxis none
          .ok (interior ++ dLast)
      | _ :: _ => do
          let tail ← phasesDyn gravity planarAxis (t + (n - 1) + 1) rest tgs.tail
          .ok (interior ++ tgs.headD [] ++ tail)

/-- Builds `cnt` consecutive multi-phase collocation sets of phase `ph` starting
at instant `t`. -/
def collocFrom (scheme : CollocationScheme) (robot : Robot) (ph : ℕ) :
    ℕ → ℕ → Except DynError (List Factor)
  | _, 0 => .ok []
  | t, cnt + 1 => do
      let c ← multiPhaseCollocationFactors robot t ph scheme
      let rest ← collocFrom scheme robot ph (t + 1) cnt
      .ok (c ++ rest)

/-- The collocation loop of `multiPhaseTrajectoryFG`: one collocation set
per step of every phase, with the instant counter threaded across
phases. -/
def phasesColloc (scheme : CollocationScheme) :
    ℕ → ℕ → List (Robot × ℕ) → Except DynError (List Factor)
  | _, _, [] => .ok []
  | t, ph, (robot, n) :: rest => do
      let cs ← collocFrom scheme robot ph t n
      let tail ← phasesColloc scheme (t + n) (ph + 1) rest
      .ok (cs ++ tail)

/-- Models `DynamicsGraphBuilder::multiPhaseTrajectoryFG`: the instant-0 graph for
the first robot variant, the phase loop, then the collocation loop. -/
def multiPhaseTrajectoryFG (robots : List Robot) (phaseSteps : List ℕ)
    (transitionGraphs : List (List Factor)) (scheme : CollocationScheme)
    (gravity planarAxis : Option Vec3) : Except DynError (List Factor) := do
  let d0 ← dynamicsFactorGraph (robots.headD Robot.empty) 0 gravity
    planarAxis none
  let dyn ← phasesDyn gravity planarAxis 0 (robots.zip phaseSteps)
    transitionGraphs
  let col ← phasesColloc scheme 0 0 (robots.zip phaseSteps)
  .ok (d0 ++ dyn ++ col)

/-- A value stored in a `gtsam::Values` assignment: a pose, a 6-vector, or
a scalar. -/
inductive GtsamValue where
  | pose (p : Pose3)
  | vec6 (v : Vec6)
  | scalar (x : ℚ)
deriving DecidableEq, Repr

/-- Models `gtsam::Values` as an association list in insertion order. -/
abbrev Values : Type := List (DynKey × GtsamValue)

/-- First value stored under a key, if any. -/
def Values.getValue : Values → DynKey → Option GtsamValue
  | [], _ => none
  | (k', v) :: rest, k => if k' = k then some v else Values.getValue rest k

/-- Models `gtsam::Values::atDouble`: the scalar stored under the key, `none`
modelling the exception when the key is absent or holds a non-scalar. -/
def Values.atDouble (vals : Values) (k : DynKey) : Option ℚ :=
  match Values.getValue vals k with
  | some (.scalar x) => some x
  | _ => none

/-- The three per-link insertions of `zeroValues`: the rest COM world pose
`link->Twcom()` under the pose key, and zero twist and acceleration. -/
def linkZeroEntries (t : ℕ) (link : Link) : Values :=
  [(PoseKey link.id t, GtsamValue.pose link.Twcom),
   (TwistKey link.id t, GtsamValue.vec6 Vec6.zero),
   (TwistAccelKey link.id t, GtsamValue.vec6 Vec6.zero)]

/-- The six per-joint insertions of `zeroValues`: zero wrenches on both
endpoints, zero torque, zero angle, velocity and acceleration. -/
def jointZeroEntries (t : ℕ) (joint : Joint) : Values :=
  [(WrenchKey joint.parentId joint.id t, GtsamValue.vec6 Vec6.zero),
   (WrenchKey joint.childId joint.id t, GtsamValue.vec6 Vec6.zero),
   (TorqueKey joint.id t, GtsamValue.scalar 0),
   (JointAngleKey joint.id t, GtsamValue.scalar 0),
   (JointVelKey joint.id t, GtsamValue.scalar 0),
   (JointAccelKey joint.id t, GtsamValue.scalar 0)]

/-- Models `DynamicsGraphBuilder::zeroValues`. -/
def zeroValues (robot : Robot) (t : ℕ) : Values :=
  robot.links.flatMap (linkZeroEntries t) ++
    robot.joints.flatMap (jointZeroEntries t)

/-- Models `DynamicsGraphBuilder::zeroValuesTrajectory`: per-instant zero values
for `t = 0 .. numSteps`, and, when `numPhases > 0`, a zero duration for
every phase index `0 .. numPhases` inclusive. -/
def zeroValuesTrajectory (robot : Robot) (numSteps : ℕ) (numPhases : ℤ) :
    Values :=
  (List.range (numSteps + 1)).flatMap (zeroValues robot) ++
    (if numPhases > 0 then
      (List.range (numPhases.toNat + 1)).map
        (fun ph => (PhaseKey ph, GtsamValue.scalar 0))
     else [])

/-- The joint loop of `jointAngles`, reading one angle per joint. -/
def jointAnglesFrom (result : Values) (t : ℕ) :
    List Joint → Option (List ℚ)
  | [] => some []
  | joint :: rest => do
      let x ← Values.atDouble result (JointAngleKey joint.id t)
      let xs ← jointAnglesFrom result t rest
      some (x :: xs)

/-- Models `DynamicsGraphBuilder::jointAngles` (vector of length `numJoints`). -/
def jointAngles (robot : Robot) (result : Values) (t : ℕ) :
    Option (List ℚ) :=
  jointAnglesFrom result t robot.joints

/-- The joint loop of `jointVels`. -/
def jointVelsFrom (result : Values) (t : ℕ) :
    List Joint → Option (List ℚ)
  | [] => some []
  | joint :: rest => do
      let x ← Values.atDouble result (JointVelKey joint.id t)
      let xs ← jointVelsFrom result t rest
      some (x :: xs)

/-- Models `DynamicsGraphBuilder::jointVels`. -/
def jointVels (robot : Robot) (result : Values) (t : ℕ) :
    Option (List ℚ) :=
  jointVelsFrom result t robot.joints

/-- The joint loop of `jointAccels`. -/
def jointAccelsFrom (result : Values) (t : ℕ) :
    List Joint → Option (List ℚ)
  | [] => some []
  | joint :: rest => do
      let x ← Values.atDouble result (JointAccelKey joint.id t)
      let xs ← jointAccelsFrom result t rest
      some (x :: xs)

/-- Models `DynamicsGraphBuilder::jointAccels`. -/
def jointAccels (robot : Robot) (result : Values) (t : ℕ) :
    Option (List ℚ) :=
  jointAccelsFrom result t robot.joints

/-- Query-time errors of the robot interface (spec §7 taxonomy). -/
inductive RobotError where
  | noSuchJoint
  | ambiguousJoint
deriving DecidableEq, Repr

/-- Whether the joint directly connects the two named links, in either
orientation. -/
def Joint.connects (joint : Joint) (l1 l2 : String) : Bool :=
  (joint.parentName == l1 && joint.childName == l2) ||
    (joint.parentName == l2 && joint.childName == l1)

/-- Modelled from the spec: the body of
`UniversalRobot::getJointBetweenLinks` is not among the analyzed sources
(UniversalRobot.h only declares it).  Spec §4.3: return the joint, if
any, directly connecting the two named links; fail with `NoSuchJoint` if
none exists; treat duplicate connections as `AmbiguousJoint`. -/
def getJointBetweenLinks (robot : Robot) (l1 l2 : String) :
    Except RobotError Joint :=
  match robot.joints.filter (fun joint => joint.connects l1 l2) with
  | [] => .error .noSuchJoint
  | [joint] => .ok joint
  | _ => .error .ambiguousJoint

/-- The factor list of a successful build, `[]` on error. -/
def okG (e : Except DynError (List Factor)) : List Factor :=
  match e with
  | .ok fs => fs
  | .error _ => []

/-- Every non-fixed link has at most four incident joints, so no wrench
build fails. -/
def wellDegreed (r : Robot) : Prop :=
  ∀ l ∈ r.links, l.isFixed = false → l.joints.length ≤ 4

instance (r : Robot) : Decidable (wellDegreed r) := by
  unfold wellDegreed; infer_instance

/-! ### Fixture robots -/

/-- A diagonal placeholder inertia. -/
def inertia1 : Mat3 := ⟨⟨1, 0, 0⟩, ⟨0, 1, 0⟩, ⟨0, 0, 1⟩⟩

/-- An axis-aligned pose translated `z` along the world z-axis. -/
def poseZ (z : ℚ) : Pose3 :=
  { Pose3.identity with trans := ⟨0, 0, z⟩ }

/-- A revolute screw axis about x. -/
def axisX : Vec6 := ⟨1, 0, 0, 0, 0, 0⟩

/-- Fixed base link of the two-link fixture. -/
def link1 : Link :=
  { id := 1, name := "l1", isFixed := true, fixedPose := poseZ 1,
    Twcom := poseZ 1, inertia := inertia1, joints := [1] }

/-- Moving link of the two-link fixture. -/
def link2 : Link :=
  { id := 2, name := "l2", isFixed := false, fixedPose := Pose3.identity,
    Twcom := poseZ 3, inertia := inertia1, joints := [1] }

/-- The joint of the two-link fixture. -/
def joint1 : Joint :=
  { id := 1, name := "j1", parentId := 1, childId := 2, parentName := "l1",
    childName := "l2", transformToChild := poseZ 2, screwAxisChild := axisX }

/-- A two-link, one-joint fixture in the style of `simple_urdf`. -/
def robot1 : Robot := ⟨[link1, link2], [joint1]⟩

/-- A robot with one moving link and no joint at all. -/
def robotNoJoints : Robot := ⟨[{ link2 with joints := [] }], []⟩

/-- A robot holding a non-fixed link of joint-degree five. -/
def robotDeg5 : Robot := ⟨[{ link2 with joints := [1, 2, 3, 4, 5] }], []⟩

/-! ### Counting lemmas for the per-instant graph -/

/-- A guarded `filterMap` is a `map` over the `filter`. -/
theorem filterMap_guard_eq {α β : Type} (p : α → Bool) (f : α → β)
    (l : List α) :
    (l.filterMap fun a => if p a then some (f a) else none) =
      (l.filter p).map f := by
  induction l with
  | nil => rfl
  | cons a l ih =>
      cases h : p a <;>
        simp [List.filterMap_cons, List.filter_cons, h, ih]

theorem qFactors_length (robot : Robot) (t : ℕ) :
    (qFactors robot t).length =
      (robot.links.filter fun l => l.isFixed).length + robot.joints.length := by
  simp [qFactors, filterMap_guard_eq]

theorem vFactors_length (robot : Robot) (t : ℕ) :
    (vFactors robot t).length =
      (robot.links.filter fun l => l.isFixed).length + robot.joints.length := by
  simp [vFactors, filterMap_guard_eq]

theorem aFactors_length (robot : Robot) (t : ℕ) :
    (aFactors robot t).length =
      (robot.links.filter fun l => l.isFixed).length + robot.joints.length := by
  simp [aFactors, filterMap_guard_eq]

/-- Shape of a successful per-link wrench build: nothing for a fixed link,
otherwise the single balance factor whose wrench keys enumerate the
link's incident joints. -/
theorem linkWrenchFactors_ok_shape (g : Option Vec3) (t : ℕ) (l : Link)
    (fs : List Factor) (h : linkWrenchFactors g t l = .ok fs) :
    (l.isFixed = true ∧ fs = []) ∨
      (l.isFixed = false ∧ fs = [Factor.wrenchFactor (TwistKey l.id t)
        (TwistAccelKey l.id t) (l.joints.map fun j => WrenchKey l.id j t)
        (PoseKey l.id t) l.inertia g]) := by
  cases hfix : l.isFixed with
  | true =>
      left
      refine ⟨rfl, ?_⟩
      simp only [linkWrenchFactors, hfix, if_true] at h
      exact (Except.ok.injEq _ _ ▸ h.symm :)
  | false =>
      right
      refine ⟨rfl, ?_⟩
      simp only [linkWrenchFactors, hfix, Bool.false_eq_true, if_false] at h
      rcases hj : l.joints with _ | ⟨j0, _ | ⟨j1, _ | ⟨j2, _ | ⟨j3, _ | ⟨j4, rest⟩⟩⟩⟩⟩ <;>
        simp [hj] at h <;> simp [← h, hj]

/-- A non-fixed link of degree at most four builds successfully. -/
theorem linkWrenchFactors_ok_of_deg (g : Option Vec3) (t : ℕ) (l : Link)
    (hfix : l.isFixed = false) (hdeg : l.joints.length ≤ 4) :
    linkWrenchFactors g t l = .ok [Factor.wrenchFactor (TwistKey l.id t)
      (TwistAccelKey l.id t) (l.joints.map fun j => WrenchKey l.id j t)
      (PoseKey l.id t) l.inertia g] := by
  rcases hj : l.joints with _ | ⟨j0, _ | ⟨j1, _ | ⟨j2, _ | ⟨j3, _ | ⟨j4, rest⟩⟩⟩⟩⟩ <;>
    simp [linkWrenchFactors, hfix, hj] <;> · rw [hj] at hdeg; simp at hdeg

/-- A fixed link builds an empty wrench list. -/
theorem linkWrenchFactors_ok_of_fixed (g : Option Vec3) (t : ℕ) (l : Link)
    (hfix : l.isFixed = true) : linkWrenchFactors g t l = .ok [] := by
  simp [linkWrenchFactors, hfix]

/-- A non-fixed link of degree five or more fails with
`unsupportedLinkDegree`. -/
theorem linkWrenchFactors_error_of_deg (g : Option Vec3) (t : ℕ) (l : Link)
    (hfix : l.isFixed = false) (hdeg : 5 ≤ l.joints.length) :
    linkWrenchFactors g t l = .error .unsupportedLinkDegree := by
  rcases hj : l.joints with _ | ⟨j0, _ | ⟨j1, _ | ⟨j2, _ | ⟨j3, _ | ⟨j4, rest⟩⟩⟩⟩⟩
  · rw [hj] at hdeg; simp at hdeg
  · rw [hj] at hdeg; simp at hdeg
  · rw [hj] at hdeg; simp at hdeg
  · rw [hj] at hdeg; simp at hdeg
  · rw [hj] at hdeg; simp at hdeg
  · simp [linkWrenchFactors, hfix, hj]

/-- Decomposition of a successful `Except` bind. -/
theorem exceptBind_ok {ε α β : Type} (x : Except ε α) (k : α → Except ε β)
    (r : β) : x >>= k = .ok r ↔ ∃ a, x = .ok a ∧ k a = .ok r := by
  cases x <;> simp [Bind.bind, Except.bind]

/-- Length of a successful link loop: one balance factor per non-fixed
link. -/
theorem linksWrench_ok_length (g : Option Vec3) (t : ℕ) :
    ∀ (ls : List Link) (fs : List Factor), linksWrench g t ls = .ok fs →
      fs.length = (ls.filter fun l => !l.isFixed).length := by
  intro ls
  induction ls with
  | nil => intro fs h; cases h; rfl
  | cons l rest ih =>
      intro fs h
      simp only [linksWrench] at h
      rw [exceptBind_ok] at h
      obtain ⟨f, hl, h⟩ := h
      rw [exceptBind_ok] at h
      obtain ⟨fs', hr, h⟩ := h
      obtain rfl : f ++ fs' = fs := by
        simpa using h
      rcases linkWrenchFactors_ok_shape g t l f hl with ⟨hfix, hf⟩ | ⟨hfix, hf⟩ <;>
        simp [hf, List.filter_cons, hfix, ih fs' hr]

/-- Every factor of a successful link loop is a wrench-balance factor. -/
theorem linksWrench_ok_balance (g : Option Vec3) (t : ℕ) :
    ∀ (ls : List Link) (fs : List Factor), linksWrench g t ls = .ok fs →
      ∀ f ∈ fs, ∃ kt ka ks kp ine gr, f = Factor.wrenchFactor kt ka ks kp ine gr := by
  intro ls
  induction ls with
  | nil => intro fs h; cases h; intro f hf; cases hf
  | cons l rest ih =>
      intro fs h
      simp only [linksWrench] at h
      rw [exceptBind_ok] at h
      obtain ⟨f, hl, h⟩ := h
      rw [exceptBind_ok] at h
      obtain ⟨fs', hr, h⟩ := h
      obtain rfl : f ++ fs' = fs := by
        simpa using h
      intro x hx
      rcases List.mem_append.mp hx with hx | hx
      · rcases linkWrenchFactors_ok_shape g t l f hl with ⟨_, hf⟩ | ⟨_, hf⟩
        · rw [hf] at hx; cases hx
        · rw [hf] at hx
          rcases List.mem_singleton.mp hx with rfl
          exact ⟨_, _, _, _, _, _, rfl⟩
      · exact ih fs' hr x hx

/-! ### Constraint-kind discriminators -/

/-- Pose prior on a fixed link. -/
def isPosePrior : Factor → Bool
  | .priorPose _ _ => true
  | _ => false

/-- Zero-twist prior on a fixed link. -/
def isTwistPrior : Factor → Bool
  | .priorVec6 (.twist _ _) _ => true
  | _ => false

/-- Zero-acceleration prior on a fixed link. -/
def isAccelPrior : Factor → Bool
  | .priorVec6 (.twistAccel _ _) _ => true
  | _ => false

/-- Pose-consistency constraint of a joint. -/
def isPoseConstraint : Factor → Bool
  | .poseFactor _ _ _ _ _ => true
  | _ => false

/-- Twist-propagation constraint of a joint. -/
def isTwistConstraint : Factor → Bool
  | .twistFactor _ _ _ _ _ _ => true
  | _ => false

/-- Acceleration-propagation constraint of a joint. -/
def isAccelConstraint : Factor → Bool
  | .twistAccelFactor _ _ _ _ _ _ _ _ => true
  | _ => false

/-- Wrench-equivalence constraint of a joint. -/
def isWrenchEquiv : Factor → Bool
  | .wrenchEquivFactor _ _ _ _ _ => true
  | _ => false

/-- Torque-extraction constraint of a joint. -/
def isTorqueConstraint : Factor → Bool
  | .torqueFactor _ _ _ => true
  | _ => false

/-- Wrench-balance constraint of a link. -/
def isWrenchBalance : Factor → Bool
  | .wrenchFactor _ _ _ _ _ _ => true
  | _ => false

/-- Distributes `countP` through a flatMap of two-element blocks. -/
theorem countP_flatMap_pair {α β : Type} (q : β → Bool) (h1 h2 : α → β) :
    ∀ l : List α, ((l.flatMap fun a => [h1 a, h2 a]).countP q) =
      ((l.map h1).countP q) + ((l.map h2).countP q) := by
  intro l
  induction l with
  | nil => rfl
  | cons a l ih =>
      simp only [List.flatMap_cons, List.map_cons, List.countP_append,
        List.countP_cons, ih, List.countP_nil]
      cases q (h1 a) <;> cases q (h2 a) <;> simp <;> omega

/-- Decomposition of a successful `dynamicsFactors` build. -/
theorem dynamicsFactors_ok_shape (robot : Robot) (t : ℕ)
    (gravity planarAxis : Option Vec3) (dfs : List Factor)
    (h : dynamicsFactors robot t gravity planarAxis = .ok dfs) :
    ∃ wfs, linksWrench gravity t robot.links = .ok wfs ∧
      dfs = wfs ++ robot.joints.flatMap (jointDynFactors planarAxis t) := by
  simp only [dynamicsFactors] at h
  rw [exceptBind_ok] at h
  obtain ⟨wfs, hw, h⟩ := h
  exact ⟨wfs, hw, by simpa using h.symm⟩

/-- Decomposition of a successful `dynamicsFactorGraph` build. -/
theorem dynamicsFactorGraph_ok_shape (robot : Robot) (t : ℕ)
    (gravity planarAxis : Option Vec3) (contacts : Option (List ℕ))
    (gfs : List Factor)
    (h : dynamicsFactorGraph robot t gravity planarAxis contacts = .ok gfs) :
    ∃ dfs, dynamicsFactors robot t gravity planarAxis = .ok dfs ∧
      gfs = qFactors robot t ++ vFactors robot t ++ aFactors robot t ++ dfs := by
  simp only [dynamicsFactorGraph] at h
  rw [exceptBind_ok] at h
  obtain ⟨dfs, hd, h⟩ := h
  exact ⟨dfs, hd, by simpa using h.symm⟩

/-- The joint loop of `dynamicsFactors` without planar axis, as a flatMap
of explicit two-element blocks. -/
theorem jointDyn_none_blocks (t : ℕ) (js : List Joint) :
    js.flatMap (jointDynFactors none t) =
      js.flatMap (fun j =>
        [Factor.wrenchEquivFactor (WrenchKey j.parentId j.id t)
            (WrenchKey j.childId j.id t) (JointAngleKey j.id t)
            j.transformToChild j.screwAxisChild,
         Factor.torqueFactor (WrenchKey j.childId j.id t) (TorqueKey j.id t)
            j.screwAxisChild]) := rfl

/-- Length through a flatMap of two-element blocks. -/
theorem length_flatMap_pair {α β : Type} (h1 h2 : α → β) :
    ∀ l : List α, (l.flatMap fun a => [h1 a, h2 a]).length = 2 * l.length := by
  intro l
  induction l with
  | nil => rfl
  | cons a l ih => simp [ih]; omega

/-- C1: For every robot and time index `t`, the per-instant constraint
set produced by `dynamicsFactorGraph` (the union of `qFactors`,
`vFactors`, `aFactors` and `dynamicsFactors`) with no planar axis and no
priors contains exactly `(#fixed links)·3 + (#joints)·5 +
(#non-fixed links)·1` constraints: one pose, twist and acceleration prior
per fixed link; one pose, twist, acceleration, wrench-equivalence and
torque constraint per joint; and one wrench-balance constraint per
non-fixed link. -/
theorem dynamicsFactorGraph_instant_count (robot : Robot) (t : ℕ)
    (gravity : Option Vec3) (contacts : Option (List ℕ)) (gfs : List Factor)
    (h : dynamicsFactorGraph robot t gravity none contacts = .ok gfs) :
    gfs.length = 3 * (robot.links.filter fun l => l.isFixed).length
        + 5 * robot.joints.length
        + (robot.links.filter fun l => !l.isFixed).length
    ∧ gfs.countP isPosePrior = (robot.links.filter fun l => l.isFixed).length
    ∧ gfs.countP isTwistPrior = (robot.links.filter fun l => l.isFixed).length
    ∧ gfs.countP isAccelPrior = (robot.links.filter fun l => l.isFixed).length
    ∧ gfs.countP isPoseConstraint = robot.joints.length
    ∧ gfs.countP isTwistConstraint = robot.joints.length
    ∧ gfs.countP isAccelConstraint = robot.joints.length
    ∧ gfs.countP isWrenchEquiv = robot.joints.length
    ∧ gfs.countP isTorqueConstraint = robot.joints.length
    ∧ gfs.countP isWrenchBalance = (robot.links.filter fun l => !l.isFixed).length := by
  obtain ⟨dfs, hd, rfl⟩ :=
    dynamicsFactorGraph_ok_shape robot t gravity none contacts gfs h
  obtain ⟨wfs, hw, rfl⟩ := dynamicsFactors_ok_shape robot t gravity none dfs hd
  have hlen := linksWrench_ok_length gravity t robot.links wfs hw
  have hbal := linksWrench_ok_balance gravity t robot.links wfs hw
  have hwb : wfs.countP isWrenchBalance = wfs.length :=
    List.countP_eq_length.mpr (fun f hf => by
      obtain ⟨kt, ka, ks, kp, ine, gr, rfl⟩ := hbal f hf; rfl)
  have hwz : ∀ q : Factor → Bool,
      (∀ kt ka ks kp ine gr, q (Factor.wrenchFactor kt ka ks kp ine gr) = false) →
      wfs.countP q = 0 := fun q hq =>
    List.countP_eq_zero.mpr (fun f hf => by
      obtain ⟨kt, ka, ks, kp, ine, gr, rfl⟩ := hbal f hf; simp [hq])
  rw [jointDyn_none_blocks]
  refine ⟨?_, ?_, ?_, ?_, ?_, ?_, ?_, ?_, ?_, ?_⟩
  · simp only [List.length_append, qFactors_length, vFactors_length,
      aFactors_length, hlen, length_flatMap_pair]
    omega
  · simp only [List.countP_append]
    rw [hwz _ (fun _ _ _ _ _ _ => rfl)]
    simp [qFactors, vFactors, aFactors, filterMap_guard_eq, List.countP_map,
      countP_flatMap_pair, Function.comp_def, isPosePrior]
  · simp only [List.countP_append]
    rw [hwz _ (fun _ _ _ _ _ _ => rfl)]
    simp [qFactors, vFactors, aFactors, filterMap_guard_eq, List.countP_map,
      countP_flatMap_pair, Function.comp_def, isTwistPrior, TwistKey,
      TwistAccelKey, PoseKey, WrenchKey]
  · simp only [List.countP_append]
    rw [hwz _ (fun _ _ _ _ _ _ => rfl)]
    simp [qFactors, vFactors, aFactors, filterMap_guard_eq, List.countP_map,
      countP_flatMap_pair, Function.comp_def, isAccelPrior, TwistKey,
      TwistAccelKey, PoseKey, WrenchKey]
  · simp only [List.countP_append]
    rw [hwz _ (fun _ _ _ _ _ _ => rfl)]
    simp [qFactors, vFactors, aFactors, filterMap_guard_eq, List.countP_map,
      countP_flatMap_pair, Function.comp_def, isPoseConstraint]
  · simp only [List.countP_append]
    rw [hwz _ (fun _ _ _ _ _ _ => rfl)]
    simp [qFactors, vFactors, aFactors, filterMap_guard_eq, List.countP_map,
      countP_flatMap_pair, Function.comp_def, isTwistConstraint]
  · simp only [List.countP_append]
    rw [hwz _ (fun _ _ _ _ _ _ => rfl)]
    simp [qFactors, vFactors, aFactors, filterMap_guard_eq, List.countP_map,
      countP_flatMap_pair, Function.comp_def, isAccelConstraint]
  · simp only [List.countP_append]
    rw [hwz _ (fun _ _ _ _ _ _ => rfl)]
    simp [qFactors, vFactors, aFactors, filterMap_guard_eq, List.countP_map,
      countP_flatMap_pair, Function.comp_def, isWrenchEquiv]
  · simp only [List.countP_append]
    rw [hwz _ (fun _ _ _ _ _ _ => rfl)]
    simp [qFactors, vFactors, aFactors, filterMap_guard_eq, List.countP_map,
      countP_flatMap_pair, Function.comp_def, isTorqueConstraint]
  · simp only [List.countP_append]
    rw [hwb]
    simp [qFactors, vFactors, aFactors, filterMap_guard_eq, List.countP_map,
      countP_flatMap_pair, Function.comp_def, isWrenchBalance, hlen]

/-- The per-instant graph of the two-link fixture at time 0. -/
def instantGraph1 : List Factor :=
  okG (dynamicsFactorGraph robot1 0 none none none)

/-- Witness for C1 on the two-link fixture: the build succeeds and the
count comes out as `3·1 + 5·1 + 1`. -/
theorem dynamicsFactorGraph_instant_count_witness :
    dynamicsFactorGraph robot1 0 none none none = .ok instantGraph1 ∧
      instantGraph1.length = 3 * (robot1.links.filter fun l => l.isFixed).length
        + 5 * robot1.joints.length
        + (robot1.links.filter fun l => !l.isFixed).length :=
  ⟨rfl, (dynamicsFactorGraph_instant_count robot1 0 none none
    instantGraph1 rfl).1⟩

/-! ### Euler collocation residuals -/

/-- Pointwise update of a variable assignment. -/
def updateAsg (asg : DynKey → ℚ) (k : DynKey) (x : ℚ) : DynKey → ℚ :=
  fun k' => if k' = k then x else asg k'

/-- Euler collocation always succeeds and emits, for every joint of the
robot, its two expression factors. -/
theorem collocList_euler_ok (dt : ℚ) (t : ℕ) :
    ∀ js : List Joint, ∃ cs, collocList dt .Euler t js = .ok cs ∧
      ∀ j ∈ js, Factor.exprFactor (eulerQExpr j.id t dt) 0 ∈ cs ∧
        Factor.exprFactor (eulerVExpr j.id t dt) 0 ∈ cs := by
  intro js
  induction js with
  | nil => exact ⟨[], rfl, by simp⟩
  | cons j rest ih =>
      obtain ⟨cs, hcs, hmem⟩ := ih
      refine ⟨[Factor.exprFactor (eulerQExpr j.id t dt) 0,
        Factor.exprFactor (eulerVExpr j.id t dt) 0] ++ cs, ?_, ?_⟩
      · simp only [collocList, jointCollocation, hcs]
        rfl
      · intro j' hj'
        rcases List.mem_cons.mp hj' with rfl | hmem'
        · constructor <;> simp
        · have := hmem j' hmem'
          constructor <;> simp [this.1, this.2]

/-- C2: For every joint of a robot, fixed step `dt` and time `t`, the
Euler collocation constraints emitted by `collocationFactors` have zero
residual exactly when `angle(t+1) = angle(t) + dt·velocity(t)` and
`velocity(t+1) = velocity(t) + dt·acceleration(t)`; perturbing
`angle(t+1)` by any nonzero amount makes the angle residual nonzero. -/
theorem collocation_euler_residual (robot : Robot) (t : ℕ) (dt : ℚ)
    (joint : Joint) (hj : joint ∈ robot.joints) (asg : DynKey → ℚ) :
    (∃ cs, collocationFactors robot t dt .Euler = .ok cs ∧
        Factor.exprFactor (eulerQExpr joint.id t dt) 0 ∈ cs ∧
        Factor.exprFactor (eulerVExpr joint.id t dt) 0 ∈ cs)
    ∧ ((exprResidual asg (eulerQExpr joint.id t dt) 0 = 0 ∧
          exprResidual asg (eulerVExpr joint.id t dt) 0 = 0) ↔
        (asg (JointAngleKey joint.id (t + 1)) =
            asg (JointAngleKey joint.id t) + dt * asg (JointVelKey joint.id t) ∧
          asg (JointVelKey joint.id (t + 1)) =
            asg (JointVelKey joint.id t) + dt * asg (JointAccelKey joint.id t)))
    ∧ ∀ ε : ℚ, ε ≠ 0 →
        exprResidual (updateAsg asg (JointAngleKey joint.id (t + 1))
            (asg (JointAngleKey joint.id t) + dt * asg (JointVelKey joint.id t) + ε))
          (eulerQExpr joint.id t dt) 0 ≠ 0 := by
  refine ⟨?_, ?_, ?_⟩
  · obtain ⟨cs, hcs, hmem⟩ := collocList_euler_ok dt t robot.joints
    exact ⟨cs, hcs, hmem joint hj⟩
  · simp only [exprResidual, evalD, eulerQExpr, eulerVExpr]
    constructor
    · rintro ⟨h1, h2⟩
      constructor <;> linarith
    · rintro ⟨h1, h2⟩
      constructor <;> linarith
  · intro ε hε
    have hqq : (JointAngleKey joint.id t) ≠ (JointAngleKey joint.id (t + 1)) := by
      simp [JointAngleKey]
    have hvq : (JointVelKey joint.id t) ≠ (JointAngleKey joint.id (t + 1)) := by
      simp [JointVelKey, JointAngleKey]
    simp only [exprResidual, evalD, eulerQExpr, updateAsg, if_pos,
      if_neg hqq, if_neg hvq]
    intro hcontra
    apply hε
    linarith

/-- Witness for C2 on the fixture joint at `t = 0`, `dt = 1`, the zero
assignment, perturbation `ε = 1`. -/
theorem collocation_euler_residual_witness :
    joint1 ∈ robot1.joints ∧
      (∃ cs, collocationFactors robot1 0 1 .Euler = .ok cs ∧
        Factor.exprFactor (eulerQExpr joint1.id 0 1) 0 ∈ cs ∧
        Factor.exprFactor (eulerVExpr joint1.id 0 1) 0 ∈ cs) ∧
      exprResidual (updateAsg (fun _ => 0) (JointAngleKey joint1.id 1)
          ((fun _ => (0 : ℚ)) (JointAngleKey joint1.id 0)
            + 1 * (fun _ => (0 : ℚ)) (JointVelKey joint1.id 0) + 1))
        (eulerQExpr joint1.id 0 1) 0 ≠ 0 :=
  ⟨by decide,
   (collocation_euler_residual robot1 0 1 joint1 (by decide) (fun _ => 0)).1,
   (collocation_euler_residual robot1 0 1 joint1 (by decide) (fun _ => 0)).2.2
     1 one_ne_zero⟩

/-! ### Wrench-balance arity and the degree-5 failure -/

/-- A bind on an error short-circuits. -/
theorem exceptBind_error {ε α β : Type} (e : ε) (k : α → Except ε β) :
    (Except.error e >>= k) = Except.error e := rfl

/-- A link that is fixed or has degree at most four builds successfully. -/
theorem linkWrenchFactors_total (g : Option Vec3) (t : ℕ) (l : Link)
    (h : l.isFixed = true ∨ l.joints.length ≤ 4) :
    ∃ fs, linkWrenchFactors g t l = .ok fs := by
  cases hfix : l.isFixed with
  | true => exact ⟨[], linkWrenchFactors_ok_of_fixed g t l hfix⟩
  | false =>
      rcases h with h | h
      · rw [hfix] at h; cases h
      · exact ⟨_, linkWrenchFactors_ok_of_deg g t l hfix h⟩

/-- If some link is non-fixed of degree five or more, the link loop fails
with `unsupportedLinkDegree`. -/
theorem linksWrench_error_of_bad (g : Option Vec3) (t : ℕ) :
    ∀ ls : List Link, (∃ l ∈ ls, l.isFixed = false ∧ 5 ≤ l.joints.length) →
      linksWrench g t ls = .error .unsupportedLinkDegree := by
  intro ls
  induction ls with
  | nil => rintro ⟨l, hl, _⟩; cases hl
  | cons l rest ih =>
      rintro ⟨l', hl', hfix, hdeg⟩
      rcases List.mem_cons.mp hl' with rfl | hmem
      · have hl := linkWrenchFactors_error_of_deg g t l' hfix hdeg
        simp only [linksWrench, hl]
        rfl
      · by_cases hbad : l.isFixed = false ∧ 5 ≤ l.joints.length
        · have hl := linkWrenchFactors_error_of_deg g t l hbad.1 hbad.2
          simp only [linksWrench, hl]
          rfl
        · have hok : l.isFixed = true ∨ l.joints.length ≤ 4 := by
            rcases Bool.eq_false_or_eq_true l.isFixed with hf | hf
            · exact Or.inl hf
            · right
              by_contra hq
              exact hbad ⟨hf, by omega⟩
          obtain ⟨fsl, hl⟩ := linkWrenchFactors_total g t l hok
          have hrest := ih ⟨l', hmem, hfix, hdeg⟩
          simp only [linksWrench, hl, hrest]
          rfl

/-- Factors of a member link's successful wrench build are members of the
successful link loop's output. -/
theorem linksWrench_ok_mem (g : Option Vec3) (t : ℕ) :
    ∀ (ls : List Link) (fs : List Factor), linksWrench g t ls = .ok fs →
      ∀ l ∈ ls, ∀ fsl, linkWrenchFactors g t l = .ok fsl →
        ∀ x ∈ fsl, x ∈ fs := by
  intro ls
  induction ls with
  | nil => intro fs h l hl; cases hl
  | cons l0 rest ih =>
      intro fs h
      simp only [linksWrench] at h
      rw [exceptBind_ok] at h
      obtain ⟨f, hl0, h⟩ := h
      rw [exceptBind_ok] at h
      obtain ⟨fs', hr, h⟩ := h
      obtain rfl : f ++ fs' = fs := by simpa using h
      intro l hl fsl hfsl x hx
      rcases List.mem_cons.mp hl with rfl | hmem
      · rw [hl0] at hfsl
        obtain rfl : f = fsl := by simpa using hfsl
        exact List.mem_append_left _ hx
      · exact List.mem_append_right _ (ih fs' hr l hmem fsl hfsl x hx)

/-- C3: In wrench-balance assembly, every non-fixed link of
joint-degree at most four gets exactly one balance constraint whose
wrench variables enumerate its incident joints (arity = joint-degree),
and it appears in a successful `dynamicsFactors` output; a non-fixed link
of joint-degree five or more makes `dynamicsFactors` fail fast with
`unsupportedLinkDegree` instead of emitting constraints. -/
theorem wrench_balance_arity (robot : Robot) (t : ℕ)
    (gravity planarAxis : Option Vec3) :
    (∀ l ∈ robot.links, l.isFixed = false → l.joints.length ≤ 4 →
      linkWrenchFactors gravity t l = .ok [Factor.wrenchFactor (TwistKey l.id t)
          (TwistAccelKey l.id t) (l.joints.map fun j => WrenchKey l.id j t)
          (PoseKey l.id t) l.inertia gravity]
        ∧ (l.joints.map fun j => WrenchKey l.id j t).length = l.joints.length
        ∧ ∀ dfs, dynamicsFactors robot t gravity planarAxis = .ok dfs →
            Factor.wrenchFactor (TwistKey l.id t) (TwistAccelKey l.id t)
              (l.joints.map fun j => WrenchKey l.id j t) (PoseKey l.id t)
              l.inertia gravity ∈ dfs)
    ∧ (∀ l ∈ robot.links, l.isFixed = false → 5 ≤ l.joints.length →
        dynamicsFactors robot t gravity planarAxis =
          .error .unsupportedLinkDegree) := by
  constructor
  · intro l hl hfix hdeg
    refine ⟨linkWrenchFactors_ok_of_deg gravity t l hfix hdeg,
      List.length_map _ _, ?_⟩
    intro dfs hdfs
    obtain ⟨wfs, hw, rfl⟩ :=
      dynamicsFactors_ok_shape robot t gravity planarAxis dfs hdfs
    refine List.mem_append_left _ ?_
    exact linksWrench_ok_mem gravity t robot.links wfs hw l hl _
      (linkWrenchFactors_ok_of_deg gravity t l hfix hdeg) _ (by simp)
  · intro l hl hfix hdeg
    have herr := linksWrench_error_of_bad gravity t robot.links ⟨l, hl, hfix, hdeg⟩
    simp only [dynamicsFactors, herr]
    rfl

/-- Witness for C3: the fixture's moving link (degree 1) gets a one-wrench
balance factor, and the degree-5 robot fails. -/
theorem wrench_balance_arity_witness :
    link2 ∈ robot1.links ∧ link2.isFixed = false ∧ link2.joints.length ≤ 4 ∧
      linkWrenchFactors none 0 link2 = .ok [Factor.wrenchFactor
        (TwistKey link2.id 0) (TwistAccelKey link2.id 0)
        (link2.joints.map fun j => WrenchKey link2.id j 0) (PoseKey link2.id 0)
        link2.inertia none] ∧
      dynamicsFactors robotDeg5 0 none none = .error .unsupportedLinkDegree :=
  ⟨by decide, by decide, by decide,
   ((wrench_balance_arity robot1 0 none none).1 link2 (by decide) (by decide)
     (by decide)).1,
   (wrench_balance_arity robotDeg5 0 none none).2 { link2 with joints := [1, 2, 3, 4, 5] }
     (by decide) (by decide) (by decide)⟩

/-! ### Collocation scheme support -/

/-- For a supported scheme the fixed-step joint loop always succeeds. -/
theorem collocList_ok_of_supported (dt : ℚ) (t : ℕ)
    (scheme : CollocationScheme)
    (hs : scheme = .Euler ∨ scheme = .Trapezoidal) :
    ∀ js : List Joint, ∃ cs, collocList dt scheme t js = .ok cs := by
  intro js
  induction js with
  | nil => exact ⟨[], rfl⟩
  | cons j rest ih =>
      obtain ⟨cs, hcs⟩ := ih
      rcases hs with rfl | rfl
      · exact ⟨[Factor.exprFactor (eulerQExpr j.id t dt) 0,
          Factor.exprFactor (eulerVExpr j.id t dt) 0] ++ cs,
          by simp only [collocList, jointCollocation, hcs]; rfl⟩
      · exact ⟨[Factor.exprFactor (trapQExpr j.id t dt) 0,
          Factor.exprFactor (trapVExpr j.id t dt) 0] ++ cs,
          by simp only [collocList, jointCollocation, hcs]; rfl⟩

/-- For a supported scheme the multi-phase joint loop always succeeds. -/
theorem phaseCollocList_ok_of_supported (t ph : ℕ)
    (scheme : CollocationScheme)
    (hs : scheme = .Euler ∨ scheme = .Trapezoidal) :
    ∀ js : List Joint, ∃ cs, phaseCollocList scheme t ph js = .ok cs := by
  intro js
  induction js with
  | nil => exact ⟨[], rfl⟩
  | cons j rest ih =>
      obtain ⟨cs, hcs⟩ := ih
      rcases hs with rfl | rfl
      · exact ⟨[Factor.exprFactor (phaseEulerQExpr j.id t ph) 0,
          Factor.exprFactor (phaseEulerVExpr j.id t ph) 0] ++ cs,
          by simp only [phaseCollocList, jointPhaseCollocation, hcs]; rfl⟩
      · exact ⟨[Factor.exprFactor (phaseTrapQExpr j.id t ph) 0,
          Factor.exprFactor (phaseTrapVExpr j.id t ph) 0] ++ cs,
          by simp only [phaseCollocList, jointPhaseCollocation, hcs]; rfl⟩

/-- C7 counterexample: On a robot without joints, requesting the
unimplemented Runge-Kutta scheme raises no error at all: both builders
return an empty graph, contradicting the claim's universal failure. -/
theorem collocation_scheme_counterexample :
    collocationFactors robotNoJoints 0 1 .RungeKutta = .ok [] ∧
      multiPhaseCollocationFactors robotNoJoints 0 0 .RungeKutta = .ok [] :=
  ⟨rfl, rfl⟩

/-- C7 amended: For every robot with at least one joint, requesting
Runge-Kutta or Hermite-Simpson from `collocationFactors` or
`multiPhaseCollocationFactors` fails with `unsupportedCollocation` (and
hence emits no constraints); for Euler and Trapezoidal both builders
succeed on every robot. -/
theorem collocation_scheme_support (robot : Robot) (t ph : ℕ) (dt : ℚ)
    (scheme : CollocationScheme) :
    ((robot.joints ≠ [] ∧
        (scheme = .RungeKutta ∨ scheme = .HermiteSimpson)) →
      collocationFactors robot t dt scheme = .error .unsupportedCollocation ∧
        multiPhaseCollocationFactors robot t ph scheme =
          .error .unsupportedCollocation)
    ∧ ((scheme = .Euler ∨ scheme = .Trapezoidal) →
      (∃ cs, collocationFactors robot t dt scheme = .ok cs) ∧
        (∃ cs, multiPhaseCollocationFactors robot t ph scheme = .ok cs)) := by
  constructor
  · rintro ⟨hjs, hbad⟩
    obtain ⟨j, rest, hcons⟩ := List.exists_cons_of_ne_nil hjs
    rcases hbad with rfl | rfl <;>
      exact ⟨by simp only [collocationFactors, hcons]; rfl,
        by simp only [multiPhaseCollocationFactors, hcons]; rfl⟩
  · intro hs
    exact ⟨collocList_ok_of_supported dt t scheme hs robot.joints,
      phaseCollocList_ok_of_supported t ph scheme hs robot.joints⟩

/-- Witness for the amended C7 on the one-joint fixture. -/
theorem collocation_scheme_support_witness :
    (collocationFactors robot1 0 1 .RungeKutta =
        .error .unsupportedCollocation ∧
      multiPhaseCollocationFactors robot1 0 0 .RungeKutta =
        .error .unsupportedCollocation) ∧
    ((∃ cs, collocationFactors robot1 0 1 .Euler = .ok cs) ∧
      (∃ cs, multiPhaseCollocationFactors robot1 0 0 .Euler = .ok cs)) :=
  ⟨(collocation_scheme_support robot1 0 0 1 .RungeKutta).1
      ⟨by decide, Or.inl rfl⟩,
   (collocation_scheme_support robot1 0 0 1 .Euler).2 (Or.inl rfl)⟩

/-! ### Whole-trajectory assembly -/

/-- A bind on an ok value reduces. -/
theorem exceptOkBind {ε α β : Type} (a : α) (k : α → Except ε β) :
    (Except.ok a >>= k) = k a := rfl

/-- Value of `okG` at a known ok build. -/
theorem okG_eq {e : Except DynError (List Factor)} {fs : List Factor}
    (h : e = .ok fs) : okG e = fs := by rw [h]; rfl

/-- The link loop succeeds on a list of well-degreed links. -/
theorem linksWrench_total (g : Option Vec3) (t : ℕ) :
    ∀ ls : List Link, (∀ l ∈ ls, l.isFixed = false → l.joints.length ≤ 4) →
      ∃ fs, linksWrench g t ls = .ok fs := by
  intro ls
  induction ls with
  | nil => exact fun _ => ⟨[], rfl⟩
  | cons l rest ih =>
      intro hdeg
      have hl : l.isFixed = true ∨ l.joints.length ≤ 4 := by
        rcases Bool.eq_false_or_eq_true l.isFixed with hf | hf
        · exact Or.inl hf
        · exact Or.inr (hdeg l (by simp) hf)
      obtain ⟨fsl, hfsl⟩ := linkWrenchFactors_total g t l hl
      obtain ⟨fs, hfs⟩ := ih (fun l' hl' => hdeg l' (List.mem_cons_of_mem l hl'))
      exact ⟨fsl ++ fs, by simp only [linksWrench, hfsl, hfs]; rfl⟩

/-- The builder `dynamicsFactorGraph` succeeds on a well-degreed robot. -/
theorem dynamicsFactorGraph_total (robot : Robot) (t : ℕ)
    (gravity planarAxis : Option Vec3) (contacts : Option (List ℕ))
    (hdeg : wellDegreed robot) :
    ∃ gfs, dynamicsFactorGraph robot t gravity planarAxis contacts = .ok gfs := by
  obtain ⟨wfs, hw⟩ := linksWrench_total gravity t robot.links hdeg
  exact ⟨qFactors robot t ++ vFactors robot t ++ aFactors robot t ++
      (wfs ++ robot.joints.flatMap (jointDynFactors planarAxis t)),
    by simp only [dynamicsFactorGraph, dynamicsFactors, hw]; rfl⟩

/-- flatMap through a successor map. -/
theorem flatMap_map_succ {β : Type} (f : ℕ → List β) :
    ∀ l : List ℕ, (l.map Nat.succ).flatMap f = l.flatMap fun k => f (k + 1) := by
  intro l
  induction l with
  | nil => rfl
  | cons a l ih => simp [ih, Nat.succ_eq_add_one]

/-- Peeling the first index off a flatMap over `range (n+1)`. -/
theorem flatMap_range_succ_left {β : Type} (f : ℕ → List β) (n : ℕ) :
    (List.range (n + 1)).flatMap f =
      f 0 ++ (List.range n).flatMap fun k => f (k + 1) := by
  rw [List.range_succ_eq_map, List.flatMap_cons, flatMap_map_succ]

/-- Shape of the `trajectoryFG` loop from an arbitrary start instant. -/
theorem trajSteps_shape (robot : Robot) (N : ℕ) (dt : ℚ)
    (scheme : CollocationScheme) (gravity planarAxis : Option Vec3)
    (hdeg : wellDegreed robot)
    (hs : scheme = .Euler ∨ scheme = .Trapezoidal) :
    ∀ cnt start, trajSteps robot N dt scheme gravity planarAxis start cnt =
      .ok ((List.range cnt).flatMap fun k =>
        okG (dynamicsFactorGraph robot (start + k) gravity planarAxis none) ++
          if start + k < N then
            okG (collocationFactors robot (start + k) dt scheme)
          else []) := by
  intro cnt
  induction cnt with
  | zero => intro start; rfl
  | succ n ih =>
      intro start
      obtain ⟨d, hd⟩ :=
        dynamicsFactorGraph_total robot start gravity planarAxis none hdeg
      rw [flatMap_range_succ_left]
      simp only [trajSteps, hd, exceptOkBind, ih (start + 1)]
      by_cases h : start < N
      · obtain ⟨cs, hcs⟩ :=
          collocList_ok_of_supported dt start scheme hs robot.joints
        have hcf : collocationFactors robot start dt scheme = .ok cs := hcs
        simp [h, hcf, hd, okG, exceptOkBind, Nat.add_assoc, Nat.add_comm,
          Nat.add_left_comm]
      · simp [h, hd, okG, exceptOkBind, Nat.add_assoc, Nat.add_comm,
          Nat.add_left_comm]

/-- C5: For every well-degreed robot, step count `N`, fixed step size
and supported collocation scheme, `trajectoryFG` is exactly the
concatenation of the `N+1` per-instant constraint sets for `t = 0..N`
interleaved with the `N` collocation constraint sets for the consecutive
pairs `(t, t+1)`, `t = 0..N-1`. -/
theorem trajectoryFG_shape (robot : Robot) (N : ℕ) (dt : ℚ)
    (scheme : CollocationScheme) (gravity planarAxis : Option Vec3)
    (hdeg : wellDegreed robot)
    (hs : scheme = .Euler ∨ scheme = .Trapezoidal) :
    trajectoryFG robot N dt scheme gravity planarAxis =
      .ok ((List.range (N + 1)).flatMap fun t =>
        okG (dynamicsFactorGraph robot t gravity planarAxis none) ++
          if t < N then okG (collocationFactors robot t dt scheme) else []) := by
  have h := trajSteps_shape robot N dt scheme gravity planarAxis hdeg hs (N + 1) 0
  simpa [trajectoryFG] using h

/-- Witness for C5 on the two-link fixture with `N = 2`, Euler. -/
theorem trajectoryFG_shape_witness :
    wellDegreed robot1 ∧
      trajectoryFG robot1 2 1 .Euler none none =
        .ok ((List.range 3).flatMap fun t =>
          okG (dynamicsFactorGraph robot1 t none none none) ++
            if t < 2 then okG (collocationFactors robot1 t 1 .Euler) else []) :=
  ⟨by decide,
   trajectoryFG_shape robot1 2 1 .Euler none none (by decide) (Or.inl rfl)⟩

/-! ### Multi-phase assembly -/

/-- Assembly order stated by the spec for the phase loop (§4.5 multi-phase
assembly): each phase contributes the per-instant sets of its interior
instants `t+1 .. t+n-1`, then the externally supplied transition set at
the boundary — except the final phase, which instead contributes one more
per-instant set at `t+n`. -/
def specPhaseDyn (gravity planarAxis : Option Vec3) :
    ℕ → List (Robot × ℕ) → List (List Factor) → List Factor
  | _, [], _ => []
  | t, (robot, n) :: rest, tgs =>
      ((List.range (n - 1)).flatMap fun k =>
        okG (dynamicsFactorGraph robot (t + 1 + k) gravity planarAxis none)) ++
      (match rest with
       | [] => okG (dynamicsFactorGraph robot (t + n) gravity planarAxis none)
       | _ :: _ =>
          tgs.headD [] ++
            specPhaseDyn gravity planarAxis (t + n) rest tgs.tail)

/-- Assembly order stated by the spec for the collocation loop: one
multi-phase collocation set per step of every phase, with consecutive
instants threaded across phases. -/
def specPhaseColloc (scheme : CollocationScheme) :
    ℕ → ℕ → List (Robot × ℕ) → List Factor
  | _, _, [] => []
  | t, ph, (robot, n) :: rest =>
      ((List.range n).flatMap fun k =>
        okG (multiPhaseCollocationFactors robot (t + k) ph scheme)) ++
        specPhaseColloc scheme (t + n) (ph + 1) rest

/-- Shape of the in-phase instant loop. -/
theorem instantsFrom_shape (gravity planarAxis : Option Vec3) (robot : Robot)
    (hdeg : wellDegreed robot) :
    ∀ cnt start, instantsFrom gravity planarAxis robot start cnt =
      .ok ((List.range cnt).flatMap fun k =>
        okG (dynamicsFactorGraph robot (start + k) gravity planarAxis none)) := by
  intro cnt
  induction cnt with
  | zero => intro start; rfl
  | succ n ih =>
      intro start
      obtain ⟨d, hd⟩ :=
        dynamicsFactorGraph_total robot start gravity planarAxis none hdeg
      rw [flatMap_range_succ_left]
      simp only [instantsFrom, hd, exceptOkBind, ih (start + 1)]
      simp [hd, okG, Nat.add_assoc, Nat.add_comm, Nat.add_left_comm]

/-- Shape of the per-phase collocation loop. -/
theorem collocFrom_shape (scheme : CollocationScheme) (robot : Robot)
    (ph : ℕ) (hs : scheme = .Euler ∨ scheme = .Trapezoidal) :
    ∀ cnt t, collocFrom scheme robot ph t cnt =
      .ok ((List.range cnt).flatMap fun k =>
        okG (multiPhaseCollocationFactors robot (t + k) ph scheme)) := by
  intro cnt
  induction cnt with
  | zero => intro t; rfl
  | succ n ih =>
      intro t
      obtain ⟨cs, hcs⟩ :=
        phaseCollocList_ok_of_supported t ph scheme hs robot.joints
      have hcf : multiPhaseCollocationFactors robot t ph scheme = .ok cs := hcs
      rw [flatMap_range_succ_left]
      simp only [collocFrom, hcf, exceptOkBind, ih (t + 1)]
      simp [hcf, okG, Nat.add_assoc, Nat.add_comm, Nat.add_left_comm]

/-- One unfolding step of `phasesDyn` on a phase. -/
theorem phasesDyn_cons (gravity planarAxis : Option Vec3) (t : ℕ)
    (robot : Robot) (n : ℕ) (rest : List (Robot × ℕ))
    (tgs : List (List Factor)) :
    phasesDyn gravity planarAxis t ((robot, n) :: rest) tgs =
      (do
        let interior ← instantsFrom gravity planarAxis robot (t + 1) (n - 1)
        match rest with
        | [] => do
            let dLast ← dynamicsFactorGraph robot (t + (n - 1) + 1) gravity
              planarAxis none
            Except.ok (interior ++ dLast)
        | _ :: _ => do
            let tail ← phasesDyn gravity planarAxis (t + (n - 1) + 1) rest
              tgs.tail
            Except.ok (interior ++ tgs.headD [] ++ tail)) := rfl

/-- One unfolding step of `specPhaseDyn` on a phase. -/
theorem specPhaseDyn_cons (gravity planarAxis : Option Vec3) (t : ℕ)
    (robot : Robot) (n : ℕ) (rest : List (Robot × ℕ))
    (tgs : List (List Factor)) :
    specPhaseDyn gravity planarAxis t ((robot, n) :: rest) tgs =
      ((List.range (n - 1)).flatMap fun k =>
        okG (dynamicsFactorGraph robot (t + 1 + k) gravity planarAxis none)) ++
      (match rest with
       | [] => okG (dynamicsFactorGraph robot (t + n) gravity planarAxis none)
       | _ :: _ =>
          tgs.headD [] ++
            specPhaseDyn gravity planarAxis (t + n) rest tgs.tail) := rfl

/-- Shape of the phase loop on well-degreed robots with positive step
counts. -/
theorem phasesDyn_shape (gravity planarAxis : Option Vec3) :
    ∀ (ps : List (Robot × ℕ)) (tgs : List (List Factor)) (t : ℕ),
      (∀ pr ∈ ps, wellDegreed pr.1 ∧ 1 ≤ pr.2) →
      phasesDyn gravity planarAxis t ps tgs =
        .ok (specPhaseDyn gravity planarAxis t ps tgs) := by
  intro ps
  induction ps with
  | nil => intro tgs t _; rfl
  | cons pr rest ih =>
      intro tgs t hps
      obtain ⟨robot, n⟩ := pr
      obtain ⟨hdeg, hn⟩ := hps (robot, n) (by simp)
      have heq : t + (n - 1) + 1 = t + n := by omega
      rw [phasesDyn_cons, specPhaseDyn_cons, heq,
        instantsFrom_shape gravity planarAxis robot hdeg (n - 1) (t + 1)]
      cases rest with
      | nil =>
          obtain ⟨d, hd⟩ := dynamicsFactorGraph_total robot (t + n) gravity
            planarAxis none hdeg
          simp only [exceptOkBind, hd]
          simp [hd, okG]
      | cons pr' rest' =>
          have hrest := ih tgs.tail (t + n)
            (fun q hq => hps q (List.mem_cons_of_mem _ hq))
          simp only [exceptOkBind, hrest]
          simp [List.append_assoc]

/-- Shape of the collocation loop over phases. -/
theorem phasesColloc_shape (scheme : CollocationScheme)
    (hs : scheme = .Euler ∨ scheme = .Trapezoidal) :
    ∀ (ps : List (Robot × ℕ)) (t ph : ℕ),
      phasesColloc scheme t ph ps = .ok (specPhaseColloc scheme t ph ps) := by
  intro ps
  induction ps with
  | nil => intro t ph; rfl
  | cons pr rest ih =>
      intro t ph
      obtain ⟨robot, n⟩ := pr
      have hone : phasesColloc scheme t ph ((robot, n) :: rest) =
          (do
            let cs ← collocFrom scheme robot ph t n
            let tail ← phasesColloc scheme (t + n) (ph + 1) rest
            Except.ok (cs ++ tail)) := rfl
      rw [hone, collocFrom_shape scheme robot ph hs n t]
      simp only [exceptOkBind, ih (t + n) (ph + 1)]
      rfl

/-- True of a phase-key mention in each multi-phase Euler/trapezoidal
expression. -/
theorem phaseCollocList_phase_key (scheme : CollocationScheme) (t ph : ℕ) :
    ∀ (js : List Joint) (cs : List Factor),
      phaseCollocList scheme t ph js = .ok cs →
      ∀ f ∈ cs, ∃ e, f = Factor.exprFactor e 0 ∧
        mentionsKey (PhaseKey ph) e = true := by
  intro js
  induction js with
  | nil =>
      intro cs h
      simp only [phaseCollocList] at h
      obtain rfl : ([] : List Factor) = cs := by simpa using h
      intro f hf; cases hf
  | cons j rest ih =>
      intro cs h
      simp only [phaseCollocList] at h
      rw [exceptBind_ok] at h
      obtain ⟨a, ha, h⟩ := h
      rw [exceptBind_ok] at h
      obtain ⟨b, hb, h⟩ := h
      obtain rfl : a ++ b = cs := by simpa using h
      intro f hf
      rcases List.mem_append.mp hf with hf | hf
      · cases scheme with
        | Euler =>
            have h2 : [Factor.exprFactor (phaseEulerQExpr j.id t ph) 0,
                Factor.exprFactor (phaseEulerVExpr j.id t ph) 0] = a := by
              simpa [jointPhaseCollocation] using ha
            rw [← h2] at hf
            simp only [List.mem_cons, List.not_mem_nil, or_false] at hf
            rcases hf with rfl | rfl
            · exact ⟨_, rfl, by simp [mentionsKey, phaseEulerQExpr, PhaseKey]⟩
            · exact ⟨_, rfl, by simp [mentionsKey, phaseEulerVExpr, PhaseKey]⟩
        | Trapezoidal =>
            have h2 : [Factor.exprFactor (phaseTrapQExpr j.id t ph) 0,
                Factor.exprFactor (phaseTrapVExpr j.id t ph) 0] = a := by
              simpa [jointPhaseCollocation] using ha
            rw [← h2] at hf
            simp only [List.mem_cons, List.not_mem_nil, or_false] at hf
            rcases hf with rfl | rfl
            · exact ⟨_, rfl, by simp [mentionsKey, phaseTrapQExpr, PhaseKey]⟩
            · exact ⟨_, rfl, by simp [mentionsKey, phaseTrapVExpr, PhaseKey]⟩
        | RungeKutta => simp [jointPhaseCollocation] at ha
        | HermiteSimpson => simp [jointPhaseCollocation] at ha
      · exact ih b hb f hf

/-- C4: For every phase list (robot variant, positive step count) with
per-boundary transition sets, `multiPhaseTrajectoryFG` produces the
per-instant set for instant 0, then for each phase the per-instant sets
for its interior instants followed at the boundary by the supplied
transition set — except the final phase, which gets one more per-instant
set — and finally one multi-phase collocation set per step of every
phase; every multi-phase collocation constraint is an expression factor
mentioning its phase's duration key. -/
theorem multiPhaseTrajectoryFG_shape (robots : List Robot)
    (phaseSteps : List ℕ) (transitionGraphs : List (List Factor))
    (scheme : CollocationScheme) (gravity planarAxis : Option Vec3)
    (hne : robots ≠ [])
    (_hlen : phaseSteps.length = robots.length)
    (_htg : transitionGraphs.length + 1 = robots.length)
    (hdeg : ∀ r ∈ robots, wellDegreed r)
    (hsteps : ∀ n ∈ phaseSteps, 1 ≤ n)
    (hs : scheme = .Euler ∨ scheme = .Trapezoidal) :
    multiPhaseTrajectoryFG robots phaseSteps transitionGraphs scheme gravity
        planarAxis =
      .ok (okG (dynamicsFactorGraph (robots.headD Robot.empty) 0 gravity
            planarAxis none)
        ++ specPhaseDyn gravity planarAxis 0 (robots.zip phaseSteps)
            transitionGraphs
        ++ specPhaseColloc scheme 0 0 (robots.zip phaseSteps))
    ∧ ∀ (r : Robot) (t ph : ℕ) (cs : List Factor),
        multiPhaseCollocationFactors r t ph scheme = .ok cs →
        ∀ f ∈ cs, ∃ e, f = Factor.exprFactor e 0 ∧
          mentionsKey (PhaseKey ph) e = true := by
  constructor
  · have hhead : wellDegreed (robots.headD Robot.empty) := by
      cases robots with
      | nil => exact absurd rfl hne
      | cons r rest => exact hdeg r (by simp)
    obtain ⟨d0, hd0⟩ := dynamicsFactorGraph_total (robots.headD Robot.empty) 0
      gravity planarAxis none hhead
    have hzip : ∀ pr ∈ robots.zip phaseSteps, wellDegreed pr.1 ∧ 1 ≤ pr.2 := by
      intro pr hpr
      obtain ⟨h1, h2⟩ := List.of_mem_zip hpr
      exact ⟨hdeg pr.1 h1, hsteps pr.2 h2⟩
    have hdyn := phasesDyn_shape gravity planarAxis (robots.zip phaseSteps)
      transitionGraphs 0 hzip
    have hcol := phasesColloc_shape scheme hs (robots.zip phaseSteps) 0 0
    simp only [multiPhaseTrajectoryFG, hd0, exceptOkBind, hdyn, hcol]
    simp [hd0, okG]
  · intro r t ph cs h
    exact phaseCollocList_phase_key scheme t ph r.joints cs h

/-- Witness for C4: two phases of the fixture robot with steps `[1, 2]`
and one (empty) transition set, Euler scheme. -/
theorem multiPhaseTrajectoryFG_shape_witness :
    ([robot1, robot1] : List Robot) ≠ [] ∧
      multiPhaseTrajectoryFG [robot1, robot1] [1, 2] [[]] .Euler none none =
        .ok (okG (dynamicsFactorGraph (([robot1, robot1] :
              List Robot).headD Robot.empty) 0 none none none)
          ++ specPhaseDyn none none 0 ([robot1, robot1].zip [1, 2]) [[]]
          ++ specPhaseColloc .Euler 0 0 ([robot1, robot1].zip [1, 2])) :=
  ⟨by decide,
   (multiPhaseTrajectoryFG_shape [robot1, robot1] [1, 2] [[]] .Euler none none
     (by decide) (by decide) (by decide) (by decide) (by decide)
     (Or.inl rfl)).1⟩

/-! ### Zero values and read-back -/

/-- First-match lookup returns the common value of all matching entries,
provided some entry matches. -/
theorem getValue_const (k : DynKey) (v : GtsamValue) :
    ∀ vals : Values, (∀ kv ∈ vals, kv.1 = k → kv.2 = v) →
      (∃ kv ∈ vals, kv.1 = k) → Values.getValue vals k = some v := by
  intro vals
  induction vals with
  | nil => rintro _ ⟨kv, hkv, _⟩; cases hkv
  | cons kv rest ih =>
      rintro hall ⟨kw, hkw, hkwk⟩
      obtain ⟨k1, v1⟩ := kv
      by_cases hk : k1 = k
      · have hv : v1 = v := hall (k1, v1) (by simp) hk
        simp [Values.getValue, hk, hv]
      · have hrest : Values.getValue ((k1, v1) :: rest) k =
            Values.getValue rest k := by simp [Values.getValue, hk]
        rw [hrest]
        refine ih (fun kw' hkw' => hall kw' (List.mem_cons_of_mem _ hkw')) ?_
        rcases List.mem_cons.mp hkw with rfl | hmem
        · exact absurd hkwk hk
        · exact ⟨kw, hmem, hkwk⟩

/-- Every entry of `zeroValues` comes from one link or one joint and has
one of the nine recorded forms. -/
theorem zeroValues_entry_forms (robot : Robot) (t : ℕ) :
    ∀ kv ∈ zeroValues robot t,
      (∃ l ∈ robot.links,
        kv = (PoseKey l.id t, GtsamValue.pose l.Twcom) ∨
        kv = (TwistKey l.id t, GtsamValue.vec6 Vec6.zero) ∨
        kv = (TwistAccelKey l.id t, GtsamValue.vec6 Vec6.zero)) ∨
      (∃ j ∈ robot.joints,
        kv = (WrenchKey j.parentId j.id t, GtsamValue.vec6 Vec6.zero) ∨
        kv = (WrenchKey j.childId j.id t, GtsamValue.vec6 Vec6.zero) ∨
        kv = (TorqueKey j.id t, GtsamValue.scalar 0) ∨
        kv = (JointAngleKey j.id t, GtsamValue.scalar 0) ∨
        kv = (JointVelKey j.id t, GtsamValue.scalar 0) ∨
        kv = (JointAccelKey j.id t, GtsamValue.scalar 0)) := by
  intro kv hkv
  rcases List.mem_append.mp hkv with h | h
  · obtain ⟨l, hl, hkvl⟩ := List.mem_flatMap.mp h
    exact Or.inl ⟨l, hl, by simpa [linkZeroEntries] using hkvl⟩
  · obtain ⟨j, hj, hkvj⟩ := List.mem_flatMap.mp h
    exact Or.inr ⟨j, hj, by simpa [jointZeroEntries] using hkvj⟩

/-- In `zeroValues`, the joint-angle key of a member joint holds the
scalar zero. -/
theorem zeroValues_angle (robot : Robot) (t : ℕ) (joint : Joint)
    (hj : joint ∈ robot.joints) :
    Values.getValue (zeroValues robot t) (JointAngleKey joint.id t) =
      some (GtsamValue.scalar 0) := by
  refine getValue_const _ _ _ ?_ ?_
  · intro kv hkv hk
    rcases zeroValues_entry_forms robot t kv hkv with
      ⟨l, _, h | h | h⟩ | ⟨j, _, h | h | h | h | h | h⟩ <;> subst h <;>
      simp_all [PoseKey, TwistKey, TwistAccelKey, WrenchKey, TorqueKey,
        JointAngleKey, JointVelKey, JointAccelKey]
  · refine ⟨(JointAngleKey joint.id t, GtsamValue.scalar 0),
      List.mem_append_right _ ?_, rfl⟩
    exact List.mem_flatMap.mpr ⟨joint, hj, by simp [jointZeroEntries]⟩

/-- In `zeroValues`, the joint-velocity key of a member joint holds the
scalar zero. -/
theorem zeroValues_vel (robot : Robot) (t : ℕ) (joint : Joint)
    (hj : joint ∈ robot.joints) :
    Values.getValue (zeroValues robot t) (JointVelKey joint.id t) =
      some (GtsamValue.scalar 0) := by
  refine getValue_const _ _ _ ?_ ?_
  · intro kv hkv hk
    rcases zeroValues_entry_forms robot t kv hkv with
      ⟨l, _, h | h | h⟩ | ⟨j, _, h | h | h | h | h | h⟩ <;> subst h <;>
      simp_all [PoseKey, TwistKey, TwistAccelKey, WrenchKey, TorqueKey,
        JointAngleKey, JointVelKey, JointAccelKey]
  · refine ⟨(JointVelKey joint.id t, GtsamValue.scalar 0),
      List.mem_append_right _ ?_, rfl⟩
    exact List.mem_flatMap.mpr ⟨joint, hj, by simp [jointZeroEntries]⟩

/-- In `zeroValues`, the joint-acceleration key of a member joint holds
the scalar zero. -/
theorem zeroValues_accel (robot : Robot) (t : ℕ) (joint : Joint)
    (hj : joint ∈ robot.joints) :
    Values.getValue (zeroValues robot t) (JointAccelKey joint.id t) =
      some (GtsamValue.scalar 0) := by
  refine getValue_const _ _ _ ?_ ?_
  · intro kv hkv hk
    rcases zeroValues_entry_forms robot t kv hkv with
      ⟨l, _, h | h | h⟩ | ⟨j, _, h | h | h | h | h | h⟩ <;> subst h <;>
      simp_all [PoseKey, TwistKey, TwistAccelKey, WrenchKey, TorqueKey,
        JointAngleKey, JointVelKey, JointAccelKey]
  · refine ⟨(JointAccelKey joint.id t, GtsamValue.scalar 0),
      List.mem_append_right _ ?_, rfl⟩
    exact List.mem_flatMap.mpr ⟨joint, hj, by simp [jointZeroEntries]⟩

/-- Read-back loop of joint angles over zero values yields zeros. -/
theorem jointAnglesFrom_zero (robot : Robot) (t : ℕ) :
    ∀ js : List Joint, (∀ j ∈ js, j ∈ robot.joints) →
      jointAnglesFrom (zeroValues robot t) t js =
        some (List.replicate js.length 0) := by
  intro js
  induction js with
  | nil => intro _; rfl
  | cons j rest ih =>
      intro hmem
      have hat : Values.atDouble (zeroValues robot t) (JointAngleKey j.id t) =
          some 0 := by
        simp [Values.atDouble, zeroValues_angle robot t j (hmem j (by simp))]
      simp [jointAnglesFrom, hat, ih (fun j' hj' =>
        hmem j' (List.mem_cons_of_mem _ hj')), List.replicate_succ]

/-- Read-back loop of joint velocities over zero values yields zeros. -/
theorem jointVelsFrom_zero (robot : Robot) (t : ℕ) :
    ∀ js : List Joint, (∀ j ∈ js, j ∈ robot.joints) →
      jointVelsFrom (zeroValues robot t) t js =
        some (List.replicate js.length 0) := by
  intro js
  induction js with
  | nil => intro _; rfl
  | cons j rest ih =>
      intro hmem
      have hat : Values.atDouble (zeroValues robot t) (JointVelKey j.id t) =
          some 0 := by
        simp [Values.atDouble, zeroValues_vel robot t j (hmem j (by simp))]
      simp [jointVelsFrom, hat, ih (fun j' hj' =>
        hmem j' (List.mem_cons_of_mem _ hj')), List.replicate_succ]

/-- Read-back loop of joint accelerations over zero values yields zeros. -/
theorem jointAccelsFrom_zero (robot : Robot) (t : ℕ) :
    ∀ js : List Joint, (∀ j ∈ js, j ∈ robot.joints) →
      jointAccelsFrom (zeroValues robot t) t js =
        some (List.replicate js.length 0) := by
  intro js
  induction js with
  | nil => intro _; rfl
  | cons j rest ih =>
      intro hmem
      have hat : Values.atDouble (zeroValues robot t) (JointAccelKey j.id t) =
          some 0 := by
        simp [Values.atDouble, zeroValues_accel robot t j (hmem j (by simp))]
      simp [jointAccelsFrom, hat, ih (fun j' hj' =>
        hmem j' (List.mem_cons_of_mem _ hj')), List.replicate_succ]

/-- C6: For every robot and time index, building the default variable
assignment with `zeroValues` and reading back the joint-angle,
joint-velocity and joint-acceleration vectors via `jointAngles`,
`jointVels` and `jointAccels` yields in each case exactly the zero vector
of length `numJoints`. -/
theorem zeroValues_readback (robot : Robot) (t : ℕ) :
    jointAngles robot (zeroValues robot t) t =
        some (List.replicate robot.numJoints 0)
    ∧ jointVels robot (zeroValues robot t) t =
        some (List.replicate robot.numJoints 0)
    ∧ jointAccels robot (zeroValues robot t) t =
        some (List.replicate robot.numJoints 0) :=
  ⟨jointAnglesFrom_zero robot t robot.joints (fun _ h => h),
   jointVelsFrom_zero robot t robot.joints (fun _ h => h),
   jointAccelsFrom_zero robot t robot.joints (fun _ h => h)⟩

/-- In `zeroValues`, the pose key of a member link holds that link's rest
COM world pose, given unique link ids. -/
theorem zeroValues_pose (robot : Robot) (t : ℕ) (l : Link)
    (hl : l ∈ robot.links) (hids : (robot.links.map Link.id).Nodup) :
    Values.getValue (zeroValues robot t) (PoseKey l.id t) =
      some (GtsamValue.pose l.Twcom) := by
  refine getValue_const _ _ _ ?_ ?_
  · intro kv hkv hk
    rcases zeroValues_entry_forms robot t kv hkv with
      ⟨l', hl', hforms⟩ | ⟨j, _, hforms⟩
    · rcases hforms with h | h | h
      · subst h
        have hid : l'.id = l.id := by simpa [PoseKey] using hk
        have heq : l' = l := List.inj_on_of_nodup_map hids hl' hl hid
        simp [heq]
      · subst h; simp_all [TwistKey, PoseKey]
      · subst h; simp_all [TwistAccelKey, PoseKey]
    · rcases hforms with h | h | h | h | h | h <;> subst h <;>
        simp_all [PoseKey, WrenchKey, TorqueKey, JointAngleKey, JointVelKey,
          JointAccelKey]
  · exact ⟨(PoseKey l.id t, GtsamValue.pose l.Twcom),
      List.mem_append_left _
        (List.mem_flatMap.mpr ⟨l, hl, by simp [linkZeroEntries]⟩), rfl⟩

/-- In `zeroValues`, a key whose matching entries all carry the zero
6-vector resolves to the zero 6-vector; instantiated below for twist,
acceleration and wrench keys. -/
theorem zeroValues_vec6_key (robot : Robot) (t : ℕ) (k : DynKey)
    (hform : ∀ i t', k ≠ DynKey.pose i t' ∧ k ≠ DynKey.torque i t' ∧
      k ≠ DynKey.angle i t' ∧ k ≠ DynKey.vel i t' ∧ k ≠ DynKey.accel i t' ∧
      ∀ j', k ≠ DynKey.phase j')
    (hex : ∃ kv ∈ zeroValues robot t, kv.1 = k) :
    Values.getValue (zeroValues robot t) k = some (GtsamValue.vec6 Vec6.zero) := by
  refine getValue_const _ _ _ ?_ hex
  intro kv hkv hk
  rcases zeroValues_entry_forms robot t kv hkv with
    ⟨l', _, h | h | h⟩ | ⟨j, _, h | h | h | h | h | h⟩ <;> subst h <;>
    first
      | rfl
      | (exfalso
         subst hk
         first
           | exact ((hform _ _).1 rfl)
           | exact ((hform _ _).2.1 rfl)
           | exact ((hform _ _).2.2.1 rfl)
           | exact ((hform _ _).2.2.2.1 rfl)
           | exact ((hform _ _).2.2.2.2.1 rfl))

/-- Entry count of the per-link block. -/
theorem linksPart_length (t : ℕ) :
    ∀ ls : List Link, (ls.flatMap (linkZeroEntries t)).length = 3 * ls.length := by
  intro ls
  induction ls with
  | nil => rfl
  | cons l rest ih => simp [linkZeroEntries, ih]; omega

/-- Entry count of the per-joint block. -/
theorem jointsPart_length (t : ℕ) :
    ∀ js : List Joint, (js.flatMap (jointZeroEntries t)).length = 6 * js.length := by
  intro js
  induction js with
  | nil => rfl
  | cons j rest ih => simp [jointZeroEntries, ih]; omega

/-- In `zeroValues`, the torque key of a member joint holds the scalar
zero. -/
theorem zeroValues_torque (robot : Robot) (t : ℕ) (joint : Joint)
    (hj : joint ∈ robot.joints) :
    Values.getValue (zeroValues robot t) (TorqueKey joint.id t) =
      some (GtsamValue.scalar 0) := by
  refine getValue_const _ _ _ ?_ ?_
  · intro kv hkv hk
    rcases zeroValues_entry_forms robot t kv hkv with
      ⟨l, _, h | h | h⟩ | ⟨j, _, h | h | h | h | h | h⟩ <;> subst h <;>
      simp_all [PoseKey, TwistKey, TwistAccelKey, WrenchKey, TorqueKey,
        JointAngleKey, JointVelKey, JointAccelKey]
  · refine ⟨(TorqueKey joint.id t, GtsamValue.scalar 0),
      List.mem_append_right _ ?_, rfl⟩
    exact List.mem_flatMap.mpr ⟨joint, hj, by simp [jointZeroEntries]⟩

/-- C9: In the default assignment built by `zeroValues`, every link's
pose variable holds that link's rest COM pose in the world frame; every
twist, twist-acceleration and wrench variable holds the zero 6-vector;
every torque, joint-angle, joint-velocity and joint-acceleration variable
holds the scalar zero; and the assignment has exactly 3 entries per link
plus 6 entries per joint. -/
theorem zeroValues_contents (robot : Robot) (t : ℕ)
    (hids : (robot.links.map Link.id).Nodup) :
    (∀ l ∈ robot.links,
      Values.getValue (zeroValues robot t) (PoseKey l.id t) =
          some (GtsamValue.pose l.Twcom) ∧
        Values.getValue (zeroValues robot t) (TwistKey l.id t) =
          some (GtsamValue.vec6 Vec6.zero) ∧
        Values.getValue (zeroValues robot t) (TwistAccelKey l.id t) =
          some (GtsamValue.vec6 Vec6.zero))
    ∧ (∀ j ∈ robot.joints,
      Values.getValue (zeroValues robot t) (WrenchKey j.parentId j.id t) =
          some (GtsamValue.vec6 Vec6.zero) ∧
        Values.getValue (zeroValues robot t) (WrenchKey j.childId j.id t) =
          some (GtsamValue.vec6 Vec6.zero) ∧
        Values.getValue (zeroValues robot t) (TorqueKey j.id t) =
          some (GtsamValue.scalar 0) ∧
        Values.getValue (zeroValues robot t) (JointAngleKey j.id t) =
          some (GtsamValue.scalar 0) ∧
        Values.getValue (zeroValues robot t) (JointVelKey j.id t) =
          some (GtsamValue.scalar 0) ∧
        Values.getValue (zeroValues robot t) (JointAccelKey j.id t) =
          some (GtsamValue.scalar 0))
    ∧ (zeroValues robot t).length =
        3 * robot.links.length + 6 * robot.joints.length := by
  refine ⟨?_, ?_, ?_⟩
  · intro l hl
    refine ⟨zeroValues_pose robot t l hl hids, ?_, ?_⟩
    · refine zeroValues_vec6_key robot t (TwistKey l.id t)
        (fun i t' => by simp [TwistKey]) ?_
      exact ⟨(TwistKey l.id t, GtsamValue.vec6 Vec6.zero),
        List.mem_append_left _
          (List.mem_flatMap.mpr ⟨l, hl, by simp [linkZeroEntries]⟩), rfl⟩
    · refine zeroValues_vec6_key robot t (TwistAccelKey l.id t)
        (fun i t' => by simp [TwistAccelKey]) ?_
      exact ⟨(TwistAccelKey l.id t, GtsamValue.vec6 Vec6.zero),
        List.mem_append_left _
          (List.mem_flatMap.mpr ⟨l, hl, by simp [linkZeroEntries]⟩), rfl⟩
  · intro j hj
    refine ⟨?_, ?_, zeroValues_torque robot t j hj,
      zeroValues_angle robot t j hj, zeroValues_vel robot t j hj,
      zeroValues_accel robot t j hj⟩
    · refine zeroValues_vec6_key robot t (WrenchKey j.parentId j.id t)
        (fun i t' => by simp [WrenchKey]) ?_
      exact ⟨(WrenchKey j.parentId j.id t, GtsamValue.vec6 Vec6.zero),
        List.mem_append_right _
          (List.mem_flatMap.mpr ⟨j, hj, by simp [jointZeroEntries]⟩), rfl⟩
    · refine zeroValues_vec6_key robot t (WrenchKey j.childId j.id t)
        (fun i t' => by simp [WrenchKey]) ?_
      exact ⟨(WrenchKey j.childId j.id t, GtsamValue.vec6 Vec6.zero),
        List.mem_append_right _
          (List.mem_flatMap.mpr ⟨j, hj, by simp [jointZeroEntries]⟩), rfl⟩
  · rw [zeroValues, List.length_append, linksPart_length, jointsPart_length]

/-- Witness for C9 on the two-link fixture: the moving link's pose reads
back as its (non-identity) rest COM pose and the entry count is
`3·2 + 6·1`. -/
theorem zeroValues_contents_witness :
    (robot1.links.map Link.id).Nodup ∧
      Values.getValue (zeroValues robot1 0) (PoseKey link2.id 0) =
        some (GtsamValue.pose link2.Twcom) ∧
      (zeroValues robot1 0).length =
        3 * robot1.links.length + 6 * robot1.joints.length :=
  ⟨by decide,
   ((zeroValues_contents robot1 0 (by decide)).1 link2 (by decide)).1,
   (zeroValues_contents robot1 0 (by decide)).2.2⟩

/-! ### Trajectory zero values and phase durations -/

/-- Whether an assignment entry is a phase-duration entry. -/
def isPhaseEntry (kv : DynKey × GtsamValue) : Bool :=
  match kv.1 with
  | .phase _ => true
  | _ => false

/-- No per-instant zero-value entry is a phase-duration entry. -/
theorem zeroValues_no_phase (robot : Robot) (t : ℕ) :
    ∀ kv ∈ zeroValues robot t, isPhaseEntry kv = false := by
  intro kv hkv
  rcases zeroValues_entry_forms robot t kv hkv with
    ⟨l, _, h | h | h⟩ | ⟨j, _, h | h | h | h | h | h⟩ <;> subst h <;> rfl

/-- C10: `zeroValuesTrajectory` inserts the per-instant default
assignment for every `t = 0..N`; when `P > 0` it additionally inserts a
zero-valued phase-duration entry for every phase index `0..P` inclusive
(`P+1` entries, one more than the number of phases), and when `P ≤ 0` it
inserts no phase-duration entry. -/
theorem zeroValuesTrajectory_shape (robot : Robot) (N : ℕ) (P : ℤ) :
    (∀ t ≤ N, ∀ kv ∈ zeroValues robot t, kv ∈ zeroValuesTrajectory robot N P)
    ∧ (zeroValuesTrajectory robot N P).countP isPhaseEntry =
        (if P > 0 then P.toNat + 1 else 0)
    ∧ (P > 0 → ∀ ph ≤ P.toNat,
        (PhaseKey ph, GtsamValue.scalar 0) ∈ zeroValuesTrajectory robot N P) := by
  have hsteps0 : ((List.range (N + 1)).flatMap (zeroValues robot)).countP
      isPhaseEntry = 0 := by
    refine List.countP_eq_zero.mpr ?_
    intro kv hkv
    obtain ⟨t, _, hkvt⟩ := List.mem_flatMap.mp hkv
    simp [zeroValues_no_phase robot t kv hkvt]
  refine ⟨?_, ?_, ?_⟩
  · intro t ht kv hkv
    refine List.mem_append_left _ ?_
    exact List.mem_flatMap.mpr ⟨t, List.mem_range.mpr (by omega), hkv⟩
  · by_cases hP : P > 0
    · simp only [zeroValuesTrajectory, if_pos hP, List.countP_append, hsteps0,
        List.countP_map, if_pos hP]
      have : ∀ ph : ℕ, isPhaseEntry (PhaseKey ph, GtsamValue.scalar 0) = true :=
        fun ph => rfl
      simp [Function.comp_def, this]
    · simp only [zeroValuesTrajectory, if_neg hP, List.countP_append, hsteps0,
        if_neg hP]
      rfl
  · intro hP ph hph
    refine List.mem_append_right _ ?_
    rw [if_pos hP]
    exact List.mem_map.mpr ⟨ph, List.mem_range.mpr (by omega), rfl⟩

/-- Witness for C10 on the fixture: `P = 2` gives three phase entries
(indices 0, 1, 2), `P = -1` gives none. -/
theorem zeroValuesTrajectory_shape_witness :
    (zeroValuesTrajectory robot1 1 2).countP isPhaseEntry = 3 ∧
      (zeroValuesTrajectory robot1 1 (-1)).countP isPhaseEntry = 0 ∧
      (PhaseKey 2, GtsamValue.scalar 0) ∈ zeroValuesTrajectory robot1 1 2 := by
  refine ⟨?_, ?_, ?_⟩
  · have h := (zeroValuesTrajectory_shape robot1 1 2).2.1
    simpa using h
  · have h := (zeroValuesTrajectory_shape robot1 1 (-1)).2.1
    simpa using h
  · exact (zeroValuesTrajectory_shape robot1 1 2).2.2 (by decide) 2 (by decide)

/-! ### Joint lookup between links -/

/-- A filter over a list with no satisfying element is empty. -/
theorem filter_none_eq_nil {α : Type} (p : α → Bool) :
    ∀ l : List α, (∀ a ∈ l, p a = false) → l.filter p = [] := by
  intro l
  induction l with
  | nil => intro _; rfl
  | cons a rest ih =>
      intro hall
      rw [List.filter_cons, hall a (by simp)]
      exact ih (fun a' ha' => hall a' (List.mem_cons_of_mem _ ha'))

/-- Filters by pointwise-equal predicates agree. -/
theorem filter_congr_local {α : Type} (p q : α → Bool) :
    ∀ l : List α, (∀ a ∈ l, p a = q a) → l.filter p = l.filter q := by
  intro l
  induction l with
  | nil => intro _; rfl
  | cons a rest ih =>
      intro hall
      rw [List.filter_cons, List.filter_cons, hall a (by simp),
        ih (fun a' ha' => hall a' (List.mem_cons_of_mem _ ha'))]

/-- A duplicate-free list whose elements all equal `j` and which contains
`j` is `[j]`. -/
theorem nodup_all_eq_singleton {α : Type} (j : α) :
    ∀ l : List α, l.Nodup → j ∈ l → (∀ x ∈ l, x = j) → l = [j] := by
  intro l
  induction l with
  | nil => intro _ hj; cases hj
  | cons a rest _ =>
      intro hnd _ hall
      have ha : a = j := hall a (by simp)
      subst ha
      cases rest with
      | nil => rfl
      | cons b rest' =>
          have hb : b = a := hall b (by simp)
          subst hb
          simp at hnd

/-- Direct connection is symmetric in the two link names. -/
theorem Joint.connects_symm (j : Joint) (l1 l2 : String) :
    j.connects l1 l2 = j.connects l2 l1 := Bool.or_comm _ _

/-- C8: `getJointBetweenLinks` returns `noSuchJoint` when no joint
directly connects the two named links; when exactly one joint connects
them (in a robot with unique joint ids) it returns that joint; and the
result is the same for the query `(l1, l2)` and the reversed query
`(l2, l1)`. -/
theorem getJointBetweenLinks_spec (robot : Robot) (l1 l2 : String) :
    ((∀ j ∈ robot.joints, j.connects l1 l2 = false) →
      getJointBetweenLinks robot l1 l2 = .error .noSuchJoint)
    ∧ ((robot.joints.map Joint.id).Nodup →
      ∀ j ∈ robot.joints, j.connects l1 l2 = true →
        (∀ x ∈ robot.joints, x.connects l1 l2 = true → x = j) →
        getJointBetweenLinks robot l1 l2 = .ok j)
    ∧ getJointBetweenLinks robot l1 l2 = getJointBetweenLinks robot l2 l1 := by
  refine ⟨?_, ?_, ?_⟩
  · intro hall
    have hfil := filter_none_eq_nil (fun j => j.connects l1 l2)
      robot.joints hall
    simp only [getJointBetweenLinks, hfil]
  · intro hnodup j hj hconn huniq
    have hfil : robot.joints.filter (fun x => x.connects l1 l2) = [j] := by
      refine nodup_all_eq_singleton j _ (List.Nodup.filter _
        (List.Nodup.of_map _ hnodup)) (List.mem_filter.mpr ⟨hj, hconn⟩) ?_
      intro x hx
      obtain ⟨hxm, hxc⟩ := List.mem_filter.mp hx
      exact huniq x hxm hxc
    simp only [getJointBetweenLinks, hfil]
  · have hfil : robot.joints.filter (fun x => x.connects l1 l2) =
        robot.joints.filter (fun x => x.connects l2 l1) :=
      filter_congr_local _ _ robot.joints
        (fun x _ => Joint.connects_symm x l1 l2)
    simp only [getJointBetweenLinks, hfil]

/-- Witness for C8 on the fixture: no joint between `l1` and an absent
`l3`; the unique joint between `l1` and `l2`; symmetric queries agree. -/
theorem getJointBetweenLinks_spec_witness :
    getJointBetweenLinks robot1 "l1" "l3" = .error .noSuchJoint ∧
      getJointBetweenLinks robot1 "l1" "l2" = .ok joint1 ∧
      getJointBetweenLinks robot1 "l1" "l2" =
        getJointBetweenLinks robot1 "l2" "l1" :=
  ⟨(getJointBetweenLinks_spec robot1 "l1" "l3").1 (by decide),
   (getJointBetweenLinks_spec robot1 "l1" "l2").2.1 (by decide) joint1
     (by decide) (by decide) (by decide),
   (getJointBetweenLinks_spec robot1 "l1" "l2").2.2⟩

end GTD
